import Mathlib

/-!
# Burst observatory: snapshot and status view

A shallow embedding of `xray-core/app/observatory/burst/burstobserver.go`:
the snapshot built by `Observer.createResult`, the query `Observer.GetObservation`,
the cadence computed in `Observer.background`, the status view built by
`Observer.logVisualStatus`, the lifecycle methods `Observer.Start` and
`Observer.Close`, and the loop of `Observer.background`.
The namespace `Log` embeds `common/log/modern_formatter.go`: the level label and the
caller text written by `ModernFormatter.Format`.

Conventions.
* `time.Duration`, `int64` and `int` values are integers (`Int`); a `time.Duration`
  counts nanoseconds.  The conversions `int64(x)` of the source act on values that
  already fit (an `int` or a `time.Duration`) and are the identity.  The one
  product of the source that can leave the 64-bit range is reduced with `wrapInt64`.
* A Go map is given as the list of its `(key, value)` pairs in the order in which
  the `range` loop of `createResult` visits them; the keys of a map are pairwise
  distinct, which is stated as a hypothesis wherever it is used.
* Go compares strings byte by byte; on UTF-8 text that is the lexicographic order
  of the code points, which is the order of `String.data`.
* Lipgloss styling and the `Sprintf` layout are presentation: a rendered row is kept
  as the style chosen for it together with the arguments handed to `Sprintf`.
* A method of the observer returns the observer afterwards, its error and the calls it
  made on the Scheduler (`StartScheduler`, `StopScheduler`) and the goroutine it
  launched; the Scheduler and `done.Instance`, whose code is outside the shown sources,
  follow the spec.
* The goroutine `background` is a step function; what other goroutines and the clock do
  between two steps is an input of each step.
-/

namespace Burst

/-! ## Data model -/

/-- Modelled from the spec: the struct `HealthPingStats` returned by `getStatistics`
is declared outside the shown sources; the spec lists `All`, `Fail` (counters) and
`Deviation`, `Average`, `Max`, `Min` (durations, in nanoseconds). -/
structure HealthPingStats where
  All : Int
  Fail : Int
  Deviation : Int
  Average : Int
  Max : Int
  Min : Int
deriving DecidableEq

/-- Modelled from the spec: the settings struct is declared outside the shown sources;
the spec lists `Destination`, `Interval`, `SamplingCount`, `Timeout` and
`EnableConcurrency`.  `Interval` and `Timeout` are durations in nanoseconds. -/
structure HealthPingSettings where
  Destination : String
  Interval : Int
  SamplingCount : Int
  Timeout : Int
  EnableConcurrency : Bool
deriving DecidableEq

/-- The part of `HealthPing` that the observer reads: `o.hp.Settings` and the map
`o.hp.Results`, whose values (of type `R`) answer `getStatistics`. -/
structure HealthPing (R : Type) where
  Settings : HealthPingSettings
  Results : List (String × R)

/-- The message `observatory.HealthPingMeasurementResult`, as filled at lines 51-58. -/
structure HealthPingMeasurementResult where
  All : Int
  Fail : Int
  Deviation : Int
  Average : Int
  Max : Int
  Min : Int
deriving DecidableEq

/-- The message `observatory.OutboundStatus`, as filled at lines 44-59. -/
structure OutboundStatus where
  Alive : Bool
  Delay : Int
  LastErrorReason : String
  OutboundTag : String
  LastSeenTime : Int
  LastTryTime : Int
  HealthPing : HealthPingMeasurementResult
deriving DecidableEq

/-- The message `observatory.ObservationResult`. -/
structure ObservationResult where
  Status : List OutboundStatus
deriving DecidableEq

/-! ## Snapshot -/

/-- Go's `time.Duration.Milliseconds`: the nanosecond count divided by `1e6`, with
Go's integer division, which truncates toward zero. -/
def Milliseconds (d : Int) : Int := Int.tdiv d 1000000

/-- The body of the `range` loop of `createResult` (lines 44-59): the entry built
for the candidate `name` whose map value is `value`. -/
def outboundStatus {R : Type} (getStatistics : R → HealthPingStats)
    (name : String) (value : R) : OutboundStatus :=
  { Alive := decide ((getStatistics value).All ≠ (getStatistics value).Fail)
    Delay := Milliseconds (getStatistics value).Average
    LastErrorReason := ""
    OutboundTag := name
    LastSeenTime := 0
    LastTryTime := 0
    HealthPing :=
      { All := (getStatistics value).All
        Fail := (getStatistics value).Fail
        Deviation := (getStatistics value).Deviation
        Average := (getStatistics value).Average
        Max := (getStatistics value).Max
        Min := (getStatistics value).Min } }

/-- `Observer.createResult` (lines 39-63): one entry appended per pair of
`o.hp.Results`, in the order of the `range` loop. -/
def createResult {R : Type} (getStatistics : R → HealthPingStats)
    (hp : HealthPing R) : List OutboundStatus :=
  hp.Results.map fun p => outboundStatus getStatistics p.1 p.2

/-- `Observer.GetObservation` (lines 35-37): the snapshot wrapped in an
`ObservationResult`, with a nil error. -/
def GetObservation {R : Type} (getStatistics : R → HealthPingStats)
    (hp : HealthPing R) : Except String ObservationResult :=
  .ok { Status := createResult getStatistics hp }

/-! ## Cadence of the reporting loop -/

/-- Go's `time.Second`, in nanoseconds. -/
def Second : Int := 1000000000

/-- The value an `int64` holds after an arithmetic result `x`: two's complement
wrap-around to the range `[-2^63, 2^63)`. -/
def wrapInt64 (x : Int) : Int := (x + 2 ^ 63) % 2 ^ 64 - 2 ^ 63

/-- The `sleepTime` computed in each iteration of `Observer.background`
(lines 89-92). -/
def sleepTime (settings : HealthPingSettings) : Int :=
  let sleepTime := Second * 10
  if settings.Interval ≠ 0 then
    wrapInt64 (settings.Interval * settings.SamplingCount)
  else
    sleepTime

/-! ## Status view -/

/-- The lipgloss styles of `logVisualStatus` that are applied to a row. -/
inductive Style where
  | titleStyle
  | rowStyle
  | selectedStyle
  | deadStyle
deriving DecidableEq

/-- One element of `rows`: the title (line 131), or a candidate row, kept as its
style and the three arguments of `Sprintf("%s %-20s | %s", …)` (lines 186-187). -/
inductive Row where
  | title (style : Style) (text : String)
  | candidate (style : Style) (icon : String) (tag : String) (latency : String)
deriving DecidableEq

/-- The style a row is rendered with. -/
def Row.style : Row → Style
  | Row.title style _ => style
  | Row.candidate style _ _ _ => style

/-- The tag shown by a candidate row; the title shows none. -/
def Row.tag? : Row → Option String
  | Row.title _ _ => none
  | Row.candidate _ _ tag _ => some tag

/-- The latency text shown by a candidate row; the title shows none. -/
def Row.latency? : Row → Option String
  | Row.title _ _ => none
  | Row.candidate _ _ _ latency => some latency

/-- The `less` closure handed to `sort.Slice` (lines 147-149 and 158-160). -/
def less (a b : OutboundStatus) : Prop := a.OutboundTag.data < b.OutboundTag.data

instance less.decidable : DecidableRel less :=
  fun a b => inferInstanceAs (Decidable (a.OutboundTag.data < b.OutboundTag.data))

/-- The order in which a sort by `less` may leave two elements: `a` may stand before
`b` when `b` is not less than `a`. -/
def notAfter (a b : OutboundStatus) : Prop := ¬ less b a

instance notAfter.decidable : DecidableRel notAfter :=
  fun a b => inferInstanceAs (Decidable (¬ less b a))

instance notAfter.isTotal : IsTotal OutboundStatus notAfter :=
  ⟨fun a b => by
    unfold notAfter less
    rcases le_total a.OutboundTag.data b.OutboundTag.data with h | h
    · exact Or.inl (not_lt.mpr h)
    · exact Or.inr (not_lt.mpr h)⟩

instance notAfter.isTrans : IsTrans OutboundStatus notAfter :=
  ⟨fun a b c hab hbc => by
    unfold notAfter less at *
    exact not_lt.mpr (le_trans (not_lt.mp hab) (not_lt.mp hbc))⟩

/-- Go's `sort.Slice(statusList, less)`.  The standard library sorts short slices by
insertion and longer ones by pattern-defeating quicksort; the result is a permutation
of the input in which no element is `less` than an earlier one.  It is given here as
the insertion sort; when the tags are pairwise distinct (they are map keys) every
such permutation is this one, see `sortSlice_unique`. -/
def sortSlice (statusList : List OutboundStatus) : List OutboundStatus :=
  List.insertionSort notAfter statusList

/-- The loop "find best" (lines 139-144 and 165-170), started at index `i` with the
current `(bestIdx, minDelay)`. -/
def findBestFrom : List OutboundStatus → Nat → Int × Int → Int × Int
  | [], _, acc => acc
  | status :: rest, i, (bestIdx, minDelay) =>
    if status.Alive = true ∧ status.Delay < minDelay then
      findBestFrom rest (i + 1) ((i : Int), status.Delay)
    else
      findBestFrom rest (i + 1) (bestIdx, minDelay)

/-- The search for the best entry with its initial values `bestIdx = -1` and
`minDelay = 99999999`; the result is `(bestIdx, minDelay)` after the loop. -/
def findBest (statusList : List OutboundStatus) : Int × Int :=
  findBestFrom statusList 0 (-1, 99999999)

/-- The body of the rendering loop (lines 173-187) for the entry at index `i`. -/
def renderRow (bestIdx : Int) (i : Nat) (status : OutboundStatus) : Row :=
  let icon := "  "
  let style := Style.rowStyle
  let latency := toString status.Delay ++ " ms"
  if status.Alive = false then
    Row.candidate Style.deadStyle "💀" status.OutboundTag "DEAD"
  else if (i : Int) = bestIdx then
    Row.candidate Style.selectedStyle "✅" status.OutboundTag latency
  else
    Row.candidate style icon status.OutboundTag latency

/-- The local variables of `logVisualStatus` when it returns, and what it printed. -/
structure VisualStatus where
  statusList : List OutboundStatus
  bestIdx : Int
  minDelay : Int
  rows : List Row
  printed : Option (List Row)
deriving DecidableEq

/-- The title row of line 131. -/
def titleRow : Row := Row.title Style.titleStyle "🔭 Observatory Status (Burst)"

/-- The body of `Observer.logVisualStatus` after `statusList := o.createResult()`
(lines 130-192): the first search, the two sorts, the second search, the rendering
loop and the final print, which happens only for a non-empty list. -/
def visualStatus (statusList : List OutboundStatus) : VisualStatus :=
  let rows := [titleRow]
  let _firstSearch := findBest statusList
  let statusList := sortSlice statusList
  let statusList := sortSlice statusList
  let best := findBest statusList
  let rows := rows ++ statusList.mapIdx (renderRow best.1)
  { statusList := statusList
    bestIdx := best.1
    minDelay := best.2
    rows := rows
    printed := if statusList.length > 0 then some rows else none }

/-- `Observer.logVisualStatus` (lines 105-193): what the call prints, `none` when it
prints nothing and `some rows` when it prints one box holding `rows`. -/
def logVisualStatus {R : Type} (getStatistics : R → HealthPingStats)
    (hp : HealthPing R) : Option (List Row) :=
  (visualStatus (createResult getStatistics hp)).printed

/-! ## Lifecycle -/

/-- Modelled from the spec: the configuration message is declared outside the shown
sources; the spec gives it as `SubjectSelector` (the tags of the subject set) and
`PingConfig`. -/
structure Config where
  SubjectSelector : List String
  PingConfig : HealthPingSettings
deriving DecidableEq

/-- The outbound manager `o.ohm`, seen through the type assertion
`o.ohm.(outbound.HandlerSelector)` of line 73: either it does not implement
`HandlerSelector`, or it does and `Select` is its method. -/
inductive OutboundManager where
  | plain
  | handlerSelector (Select : List String → List String)

/-- Modelled from the spec: `done.Instance`, the one-shot lifecycle signal, is declared
outside the shown sources; it is either open or closed. -/
structure done.Instance where
  closed : Bool
deriving DecidableEq

/-- Modelled from the spec: `done.New()` returns an open signal. -/
def done.New : done.Instance := { closed := false }

/-- Modelled from the spec: `Done()` tells whether the signal has been closed. -/
def done.Instance.Done (d : done.Instance) : Bool := d.closed

/-- Modelled from the spec: `Close()` closes the signal, leaves a closed one closed, and
returns a nil error (`none`). -/
def done.Instance.Close (d : done.Instance) : done.Instance × Option String :=
  ({ d with closed := true }, none)

/-- The fields of `Observer` (lines 23-33) that its methods read or write; `nil`
pointers are `none`. -/
structure Observer (R : Type) where
  config : Option Config
  hp : HealthPing R
  finished : Option done.Instance
  ohm : OutboundManager

/-- The closure handed to `StartScheduler` (lines 72-81), with the `o.ohm` and the
`o.config` it reads: the capability-missing error when the manager is not a
`HandlerSelector`, else `hs.Select(o.config.SubjectSelector)` and a nil error. -/
def candidateProvider (ohm : OutboundManager) (config : Config) :
    Except String (List String) :=
  match ohm with
  | OutboundManager.plain => Except.error "outbound.Manager is not a HandlerSelector"
  | OutboundManager.handlerSelector Select => Except.ok (Select config.SubjectSelector)

/-- What a method of the observer does besides updating the observer's fields: the
calls `o.hp.StartScheduler(selector)` and `o.hp.StopScheduler()` and the launch
`go o.background()`. -/
inductive Call where
  | StartScheduler (selector : Unit → Except String (List String))
  | StopScheduler
  | goBackground

/-- The result of a method of the observer: the observer afterwards, the returned
error (`none` for nil) and the calls made, in order. -/
structure Outcome (R : Type) where
  o : Observer R
  err : Option String
  calls : List Call

/-- `Observer.Start` (lines 69-85). -/
def Start {R : Type} (o : Observer R) : Outcome R :=
  match o.config with
  | some config =>
    if config.SubjectSelector.length ≠ 0 then
      { o := { o with finished := some done.New }
        err := none
        calls := [Call.StartScheduler (fun _ => candidateProvider o.ohm config),
                  Call.goBackground] }
    else
      { o := o, err := none, calls := [] }
  | none => { o := o, err := none, calls := [] }

/-- `Observer.Close` (lines 195-201). -/
def Close {R : Type} (o : Observer R) : Outcome R :=
  match o.finished with
  | some finished =>
    { o := { o with finished := some finished.Close.1 }
      err := finished.Close.2
      calls := [Call.StopScheduler] }
  | none => { o := o, err := none, calls := [] }

/-- Modelled from the spec: the Scheduler of `o.hp`, whose code is outside the shown
sources, has the states `Created → Running (on Start) → Stopped (on Stop)`. -/
inductive SchedulerState where
  | Created
  | Running
  | Stopped
deriving DecidableEq

/-- Modelled from the spec: the effect of one call on the Scheduler.  Start takes
`Created` to `Running`; Stop takes `Running` to `Stopped`, is a no-op from `Created`
and is idempotent; a second Start is left open by the spec and changes nothing here;
launching the reporting loop does not touch the Scheduler. -/
def SchedulerState.step : SchedulerState → Call → SchedulerState
  | SchedulerState.Created, Call.StartScheduler _ => SchedulerState.Running
  | SchedulerState.Running, Call.StopScheduler => SchedulerState.Stopped
  | s, _ => s

/-- The state of the Scheduler after a sequence of calls. -/
def SchedulerState.after (s : SchedulerState) (calls : List Call) : SchedulerState :=
  calls.foldl SchedulerState.step s

/-- The selectors that a sequence of calls handed to `StartScheduler`. -/
def providers : List Call → List (Unit → Except String (List String))
  | [] => []
  | Call.StartScheduler selector :: rest => selector :: providers rest
  | _ :: rest => providers rest

/-- The number of reporting loops that a sequence of calls launched. -/
def launches : List Call → Nat
  | [] => 0
  | Call.goBackground :: rest => launches rest + 1
  | _ :: rest => launches rest

/-- The number of `StopScheduler` calls in a sequence of calls. -/
def stops : List Call → Nat
  | [] => 0
  | Call.StopScheduler :: rest => stops rest + 1
  | _ :: rest => stops rest

/-! ## The reporting loop -/

/-- Where the goroutine `Observer.background` (lines 87-103) stands: before the loop
guard, inside the body with the guard passed, blocked in the `select`, returned, or
stopped by a nil dereference of `o.finished`. -/
inductive LoopState where
  | guard
  | body
  | sleeping (sleepTime : Int)
  | exited
  | panicked
deriving DecidableEq

/-- What the loop meets during one of its steps: the observer as it is then, whether
the timer of `time.After(sleepTime)` has fired, and the case `select` takes when both
of its cases are ready. -/
structure Tick (R : Type) where
  o : Observer R
  timerFired : Bool
  timerChosen : Bool

/-- One step of `Observer.background`, with the status views it prints.  At the guard
the loop reads `o.finished.Done()`; in the body it computes `sleepTime` and calls
`logVisualStatus`; in the `select` it waits until a case is ready, goes back to the
guard on the timer and returns on the signal. -/
def backgroundStep {R : Type} (getStatistics : R → HealthPingStats) (tick : Tick R) :
    LoopState → LoopState × List (Option (List Row))
  | LoopState.guard =>
    match tick.o.finished with
    | none => (LoopState.panicked, [])
    | some finished =>
      if finished.Done = true then (LoopState.exited, []) else (LoopState.body, [])
  | LoopState.body =>
    (LoopState.sleeping (sleepTime tick.o.hp.Settings),
      [logVisualStatus getStatistics tick.o.hp])
  | LoopState.sleeping t =>
    match tick.o.finished with
    | none => (LoopState.panicked, [])
    | some finished =>
      match tick.timerFired, finished.Done with
      | false, false => (LoopState.sleeping t, [])
      | true, false => (LoopState.guard, [])
      | false, true => (LoopState.exited, [])
      | true, true =>
        if tick.timerChosen = true then (LoopState.guard, []) else (LoopState.exited, [])
  | LoopState.exited => (LoopState.exited, [])
  | LoopState.panicked => (LoopState.panicked, [])

/-- The run of `Observer.background` from a state through a sequence of steps: the
state reached and the status views printed, in order. -/
def background {R : Type} (getStatistics : R → HealthPingStats) :
    LoopState → List (Tick R) → LoopState × List (Option (List Row))
  | s, [] => (s, [])
  | s, tick :: rest =>
    ((background getStatistics (backgroundStep getStatistics tick s).1 rest).1,
      (backgroundStep getStatistics tick s).2 ++
        (background getStatistics (backgroundStep getStatistics tick s).1 rest).2)

/-- The states the loop passes through, the starting state first. -/
def backgroundStates {R : Type} (getStatistics : R → HealthPingStats) :
    LoopState → List (Tick R) → List LoopState
  | s, [] => [s]
  | s, tick :: rest =>
    s :: backgroundStates getStatistics (backgroundStep getStatistics tick s).1 rest

/-! ## The simpler procedure -/

/-- The procedure in the words of the claim it is compared with: sort the snapshot by
tag once, then search for the best, then render the rows and print them when there is
at least one entry. -/
def sortOnceThenSearch (statusList : List OutboundStatus) : VisualStatus :=
  let sorted := sortSlice statusList
  let best := findBest sorted
  let rows := titleRow :: sorted.mapIdx (renderRow best.1)
  { statusList := sorted
    bestIdx := best.1
    minDelay := best.2
    rows := rows
    printed := if sorted.length > 0 then some rows else none }

end Burst

namespace Log

/-! ## The log formatter (`common/log/modern_formatter.go`) -/

/-- The logrus levels, `Level` being a `uint32`: `PanicLevel` is 0 and `TraceLevel` 6. -/
def PanicLevel : Nat := 0

/-- The logrus level `FatalLevel`. -/
def FatalLevel : Nat := 1

/-- The logrus level `ErrorLevel`. -/
def ErrorLevel : Nat := 2

/-- The logrus level `WarnLevel`. -/
def WarnLevel : Nat := 3

/-- The logrus level `InfoLevel`. -/
def InfoLevel : Nat := 4

/-- The logrus level `DebugLevel`. -/
def DebugLevel : Nat := 5

/-- The logrus level `TraceLevel`. -/
def TraceLevel : Nat := 6

/-- The method `Level.String` of logrus: the name of a defined level and `unknown`
for any other value. -/
def Level.String (level : Nat) : String :=
  if level = TraceLevel then "trace"
  else if level = DebugLevel then "debug"
  else if level = InfoLevel then "info"
  else if level = WarnLevel then "warning"
  else if level = ErrorLevel then "error"
  else if level = FatalLevel then "fatal"
  else if level = PanicLevel then "panic"
  else "unknown"

/-- Go's `strings.ToUpper`, on the ASCII text it is applied to here. -/
def strings.ToUpper (s : String) : String := String.mk (s.data.map Char.toUpper)

/-- The Go slice expression `s[:n]`: `none` stands for the run-time panic "slice bounds
out of range", raised when `n` exceeds the length.  The strings sliced here are ASCII,
where a byte is a character. -/
def sliceTo (s : String) (n : Nat) : Option String :=
  if n ≤ s.length then some (String.mk (s.data.take n)) else none

/-- Splitting a text at every occurrence of the character `sep`. -/
def splitChars (sep : Char) : List Char → List (List Char)
  | [] => [[]]
  | c :: cs =>
    if c = sep then [] :: splitChars sep cs
    else
      match splitChars sep cs with
      | [] => [[c]]
      | p :: ps => (c :: p) :: ps

/-- Joining texts with the character `sep` between them. -/
def joinChars (sep : Char) : List (List Char) → List Char
  | [] => []
  | [p] => p
  | p :: q :: ps => p ++ sep :: joinChars sep (q :: ps)

/-- Go's `strings.Split(s, sep)` for a separator of one character: the texts between
the occurrences of `sep`, one more than there are occurrences. -/
def strings.Split (s : String) (sep : Char) : List String :=
  (splitChars sep s.data).map String.mk

/-- Go's `strings.Join(elems, sep)` for a separator of one character. -/
def strings.Join (elems : List String) (sep : Char) : String :=
  String.mk (joinChars sep (elems.map String.data))

/-- The formatter, with its one field. -/
structure ModernFormatter where
  TimestampFormat : String

/-- The caller frame `entry.Caller`: function name, file and line. -/
structure Caller where
  Function : String
  File : String
  Line : Int
deriving DecidableEq

/-- The lipgloss styles of `Format`; the level style carries the foreground colour set
in the `switch`, if any. -/
inductive TextStyle where
  | timestampStyle
  | levelStyle (foreground : Option String)
  | msgStyle
  | callerStyle
deriving DecidableEq

/-- A text with the style it is rendered in. -/
structure Rendered where
  style : TextStyle
  text : String
deriving DecidableEq

/-- The four arguments of `Fprintf(b, "%s %s %s%s\n", …)` of line 74; `callerStr` is
`none` when the variable is the empty string. -/
structure Line where
  timeStr : Rendered
  levelStr : Rendered
  msg : Rendered
  callerStr : Option Rendered
deriving DecidableEq

/-- The fields of `logrus.Entry` read by `Format`: the buffer (`none` for nil, else the
lines it holds), the level, the method `Time.Format`, the message, and the caller
frame, present exactly when `entry.HasCaller()` holds. -/
structure Entry where
  Buffer : Option (List Line)
  Level : Nat
  Time : String → String
  Message : String
  Caller : Option Caller

/-- Go's `time.StampMilli`. -/
def StampMilli : String := "Jan _2 15:04:05.000"

/-- The `switch` on `entry.Level` (lines 37-51): the foreground colour and the label
handed to `SetString`; `none` when the slice of the default case panics. -/
def levelStyle (level : Nat) : Option (Option String × String) :=
  if level = DebugLevel then some (some "63", "DEBG")
  else if level = InfoLevel then some (some "86", "INFO")
  else if level = WarnLevel then some (some "192", "WARN")
  else if level = ErrorLevel ∨ level = FatalLevel ∨ level = PanicLevel then
    some (some "204", "ERRO")
  else
    (sliceTo (strings.ToUpper (Level.String level)) 4).map fun label => (none, label)

/-- The shortening of the caller's file path (lines 64-68). -/
def shortenFile (file : String) : String :=
  let parts := strings.Split file '/'
  if parts.length > 2 then
    strings.Join (parts.drop (parts.length - 2)) '/'
  else
    file

/-- The caller text of lines 59-71: `none` without caller information, else the
`Sprintf(" %s:%d %s()", file, line, funcName)` in the caller style. -/
def callerStr (caller : Option Caller) : Option Rendered :=
  match caller with
  | none => none
  | some c =>
    some { style := TextStyle.callerStyle
           text := " " ++ shortenFile c.File ++ ":" ++ toString c.Line ++ " " ++
             c.Function ++ "()" }

/-- `ModernFormatter.Format` (lines 18-77).  The outer `none` stands for a run-time
panic; otherwise the result is the content of the buffer, to which one line has been
written, and the returned error (`none` for nil). -/
def Format (f : ModernFormatter) (entry : Entry) : Option (List Line × Option String) :=
  let b := match entry.Buffer with
    | some buffer => buffer
    | none => []
  let timestampFormat := if f.TimestampFormat = "" then StampMilli else f.TimestampFormat
  match levelStyle entry.Level with
  | none => none
  | some (foreground, label) =>
    let line : Line :=
      { timeStr := { style := TextStyle.timestampStyle, text := entry.Time timestampFormat }
        levelStr := { style := TextStyle.levelStyle foreground, text := label }
        msg := { style := TextStyle.msgStyle, text := entry.Message }
        callerStr := callerStr entry.Caller }
    some (b ++ [line], none)

/-- An entry without buffer whose time prints as the layout it is given. -/
def entryOf (level : Nat) (message : String) (caller : Option Caller) : Entry :=
  { Buffer := none, Level := level, Time := fun layout => layout, Message := message,
    Caller := caller }

end Log

namespace Burst

/-! ## Fixtures -/

/-- Statistics of a candidate with one successful probe of `ms` milliseconds. -/
def aliveStats (ms : Int) : HealthPingStats :=
  { All := 1, Fail := 0, Deviation := 0, Average := ms * 1000000,
    Max := ms * 1000000, Min := ms * 1000000 }

/-- Statistics of a candidate whose only probe failed. -/
def deadStats : HealthPingStats :=
  { All := 1, Fail := 1, Deviation := 0, Average := 0, Max := 0, Min := 0 }

/-- Settings of the integration test: interval 2s, sampling 1, timeout 2s. -/
def testSettings : HealthPingSettings :=
  { Destination := "", Interval := 2 * Second, SamplingCount := 1,
    Timeout := 2 * Second, EnableConcurrency := false }

/-- Settings with no interval configured and a sampling count of 7. -/
def zeroIntervalSettings : HealthPingSettings :=
  { Destination := "", Interval := 0, SamplingCount := 7,
    Timeout := 0, EnableConcurrency := false }

/-- A store whose values are their own statistics. -/
def storeOf (results : List (String × HealthPingStats)) : HealthPing HealthPingStats :=
  { Settings := testSettings, Results := results }

/-- An observer as `New` leaves it (no lifecycle signal yet) over a store. -/
def observerOf (config : Option Config) (ohm : OutboundManager)
    (hp : HealthPing HealthPingStats) : Observer HealthPingStats :=
  { config := config, hp := hp, finished := none, ohm := ohm }

/-- The configuration of the integration test: subject set `out_fast`, `out_slow`. -/
def testConfig : Config :=
  { SubjectSelector := ["out_fast", "out_slow"], PingConfig := testSettings }

/-- A configuration whose subject set is empty. -/
def emptyConfig : Config :=
  { SubjectSelector := [], PingConfig := testSettings }

/-- A `Select` that keeps the requested tags other than `out_slow`. -/
def selectFast (tags : List String) : List String :=
  tags.filter fun tag => decide (tag ≠ "out_slow")

/-- The store used in the examples of the reporting loop. -/
def sampleStore : HealthPing HealthPingStats :=
  storeOf [("C", deadStats), ("B", aliveStats 5), ("A", aliveStats 50)]

/-- The observer of the integration test, without the enumeration capability, after
`Start` and `Close`. -/
def closedObserver : Observer HealthPingStats :=
  (Close (Start (observerOf (some testConfig) OutboundManager.plain sampleStore)).o).o

/-- Three steps of the reporting loop that see `closedObserver`; at the first the timer
has fired and its case is the one `select` takes. -/
def closedTicks : List (Tick HealthPingStats) :=
  [{ o := closedObserver, timerFired := true, timerChosen := true },
   { o := closedObserver, timerFired := false, timerChosen := false },
   { o := closedObserver, timerFired := false, timerChosen := false }]

/-! ## The sort -/

theorem notAfter_iff (a b : OutboundStatus) :
    notAfter a b ↔ a.OutboundTag.data ≤ b.OutboundTag.data := by
  unfold notAfter less
  exact not_lt

theorem sortSlice_perm (l : List OutboundStatus) : (sortSlice l).Perm l :=
  List.perm_insertionSort notAfter l

theorem sortSlice_sorted (l : List OutboundStatus) : (sortSlice l).Pairwise notAfter :=
  List.sorted_insertionSort notAfter l

theorem sortSlice_of_sorted {l : List OutboundStatus} (h : l.Pairwise notAfter) :
    sortSlice l = l :=
  List.Sorted.insertionSort_eq h

theorem sortSlice_sortSlice (l : List OutboundStatus) :
    sortSlice (sortSlice l) = sortSlice l :=
  sortSlice_of_sorted (sortSlice_sorted l)

theorem mem_sortSlice {l : List OutboundStatus} {s : OutboundStatus} :
    s ∈ sortSlice l ↔ s ∈ l :=
  (sortSlice_perm l).mem_iff

theorem length_sortSlice (l : List OutboundStatus) : (sortSlice l).length = l.length :=
  (sortSlice_perm l).length_eq

/-- Two permutations of one another that carry the same keys in the same order, the
keys being pairwise distinct, are the same list. -/
theorem eq_of_perm_of_map_eq {α β : Type} (f : α → β) :
    ∀ (l₁ l₂ : List α), l₁.Perm l₂ → l₁.map f = l₂.map f → (l₁.map f).Nodup → l₁ = l₂
  | [], l₂, hp, _, _ => (List.Perm.nil_eq hp)
  | a :: t₁, [], hp, _, _ => absurd hp.symm.nil_eq (by simp)
  | a :: t₁, b :: t₂, hp, hm, hn => by
    simp only [List.map_cons, List.cons.injEq] at hm
    have hab : a = b := by
      have hmem : a ∈ b :: t₂ := hp.subset (List.mem_cons_self a t₁)
      rcases List.mem_cons.mp hmem with h | h
      · exact h
      · exfalso
        have hn2 : (f b :: t₂.map f).Nodup := by
          have := hn
          simp only [List.map_cons] at this
          rw [hm.1, hm.2] at this
          exact this
        have : f b ∈ t₂.map f := hm.1 ▸ List.mem_map_of_mem f h
        exact (List.nodup_cons.mp hn2).1 this
    subst hab
    have hn1 : (t₁.map f).Nodup := by
      simp only [List.map_cons] at hn
      exact (List.nodup_cons.mp hn).2
    rw [eq_of_perm_of_map_eq f t₁ t₂ (List.Perm.cons_inv hp) hm.2 hn1]

/-- With pairwise distinct tags the outcome of a sort by `less` does not depend on the
algorithm: every permutation of `l` that is ordered by tag is `sortSlice l`. -/
theorem sortSlice_unique {l l' : List OutboundStatus}
    (hn : (l.map OutboundStatus.OutboundTag).Nodup)
    (hp : l'.Perm l) (hs : l'.Pairwise notAfter) : l' = sortSlice l := by
  have hperm : l'.Perm (sortSlice l) := hp.trans (sortSlice_perm l).symm
  have key : ∀ m : List OutboundStatus, m.Pairwise notAfter →
      (m.map fun s => s.OutboundTag.data).Pairwise (· ≤ ·) := by
    intro m hm
    rw [List.pairwise_map]
    exact hm.imp fun {a b} h => (notAfter_iff a b).mp h
  have htags : (l'.map fun s => s.OutboundTag.data)
      = ((sortSlice l).map fun s => s.OutboundTag.data) :=
    List.eq_of_perm_of_sorted (hperm.map _) (key l' hs) (key _ (sortSlice_sorted l))
  have hn' : (l'.map fun s => s.OutboundTag.data).Nodup := by
    have h1 : (l'.map OutboundStatus.OutboundTag).Nodup :=
      (hp.map OutboundStatus.OutboundTag).nodup_iff.mpr hn
    have h2 : (l'.map fun s => s.OutboundTag.data)
        = (l'.map OutboundStatus.OutboundTag).map String.data := by
      rw [List.map_map]; rfl
    rw [h2]
    exact h1.map (fun a b h => String.ext h)
  exact eq_of_perm_of_map_eq _ l' (sortSlice l) hperm htags hn'

/-! ## The search for the best entry -/

theorem findBestFrom_cons (status : OutboundStatus) (rest : List OutboundStatus)
    (i : Nat) (bestIdx minDelay : Int) :
    findBestFrom (status :: rest) i (bestIdx, minDelay) =
      if status.Alive = true ∧ status.Delay < minDelay then
        findBestFrom rest (i + 1) ((i : Int), status.Delay)
      else findBestFrom rest (i + 1) (bestIdx, minDelay) := rfl

/-- What the search loop leaves behind.  Either nothing was taken: the state is the
initial one and no alive entry is below the initial `minDelay`; or the entry `s` at
position `k` was taken last: it is alive, below the initial `minDelay`, no alive entry
is below it, and every alive entry before it is strictly above it. -/
theorem findBestFrom_spec : ∀ (l : List OutboundStatus) (i : Nat) (b m : Int),
    (findBestFrom l i (b, m) = (b, m) ∧ ∀ s ∈ l, s.Alive = true → m ≤ s.Delay) ∨
    (∃ (k : Nat) (s : OutboundStatus), l[k]? = some s ∧
      findBestFrom l i (b, m) = (((i + k : Nat) : Int), s.Delay) ∧
      s.Alive = true ∧ s.Delay < m ∧
      (∀ t ∈ l, t.Alive = true → s.Delay ≤ t.Delay) ∧
      ∀ (j : Nat) (t : OutboundStatus), j < k → l[j]? = some t → t.Alive = true →
        s.Delay < t.Delay)
  | [], i, b, m => Or.inl ⟨rfl, by simp⟩
  | x :: rest, i, b, m => by
    rw [findBestFrom_cons]
    by_cases hx : x.Alive = true ∧ x.Delay < m
    · rw [if_pos hx]
      rcases findBestFrom_spec rest (i + 1) (i : Int) x.Delay with ⟨he, hall⟩ | ⟨k, s, hk, he, ha, hlt, hmin, hfirst⟩
      · refine Or.inr ⟨0, x, by simp, by simpa using he, hx.1, hx.2, ?_, ?_⟩
        · intro t ht hta
          rcases List.mem_cons.mp ht with h | h
          · rw [h]
          · exact hall t h hta
        · intro j t hj
          omega
      · refine Or.inr ⟨k + 1, s, by simpa using hk, ?_, ha, lt_trans hlt hx.2, ?_, ?_⟩
        · rw [he]
          congr 1
          push_cast
          ring
        · intro t ht hta
          rcases List.mem_cons.mp ht with h | h
          · rw [h]; exact le_of_lt hlt
          · exact hmin t h hta
        · intro j t hj hjt hta
          cases j with
          | zero =>
            simp only [List.getElem?_cons_zero, Option.some.injEq] at hjt
            rw [← hjt]; exact hlt
          | succ j =>
            simp only [List.getElem?_cons_succ] at hjt
            exact hfirst j t (by omega) hjt hta
    · rw [if_neg hx]
      have hx' : x.Alive = true → m ≤ x.Delay := fun h =>
        not_lt.mp fun hlt => hx ⟨h, hlt⟩
      rcases findBestFrom_spec rest (i + 1) b m with ⟨he, hall⟩ | ⟨k, s, hk, he, ha, hlt, hmin, hfirst⟩
      · refine Or.inl ⟨he, ?_⟩
        intro t ht hta
        rcases List.mem_cons.mp ht with h | h
        · rw [h]; exact hx' (h ▸ hta)
        · exact hall t h hta
      · refine Or.inr ⟨k + 1, s, by simpa using hk, ?_, ha, hlt, ?_, ?_⟩
        · rw [he]
          congr 1
          push_cast
          ring
        · intro t ht hta
          rcases List.mem_cons.mp ht with h | h
          · rw [h]; exact le_trans (le_of_lt hlt) (hx' (h ▸ hta))
          · exact hmin t h hta
        · intro j t hj hjt hta
          cases j with
          | zero =>
            simp only [List.getElem?_cons_zero, Option.some.injEq] at hjt
            rw [← hjt]
            exact lt_of_lt_of_le hlt (hx' (hjt ▸ hta))
          | succ j =>
            simp only [List.getElem?_cons_succ] at hjt
            exact hfirst j t (by omega) hjt hta

/-- The search from the initial values `(-1, 99999999)`. -/
theorem findBest_spec (l : List OutboundStatus) :
    (findBest l = (-1, 99999999) ∧ ∀ s ∈ l, s.Alive = true → 99999999 ≤ s.Delay) ∨
    (∃ (k : Nat) (s : OutboundStatus), l[k]? = some s ∧
      findBest l = ((k : Int), s.Delay) ∧
      s.Alive = true ∧ s.Delay < 99999999 ∧
      (∀ t ∈ l, t.Alive = true → s.Delay ≤ t.Delay) ∧
      ∀ (j : Nat) (t : OutboundStatus), j < k → l[j]? = some t → t.Alive = true →
        s.Delay < t.Delay) := by
  have h := findBestFrom_spec l 0 (-1) 99999999
  simpa [findBest] using h

/-! ## The status view -/

theorem visualStatus_statusList (l : List OutboundStatus) :
    (visualStatus l).statusList = sortSlice l := by
  simp only [visualStatus]
  exact sortSlice_sortSlice l

theorem visualStatus_best (l : List OutboundStatus) :
    ((visualStatus l).bestIdx, (visualStatus l).minDelay) = findBest (sortSlice l) := by
  simp only [visualStatus]
  rw [sortSlice_sortSlice]

theorem visualStatus_bestIdx (l : List OutboundStatus) :
    (visualStatus l).bestIdx = (findBest (sortSlice l)).1 := by
  simp only [visualStatus]
  rw [sortSlice_sortSlice]

theorem visualStatus_rows (l : List OutboundStatus) :
    (visualStatus l).rows =
      titleRow :: (visualStatus l).statusList.mapIdx (renderRow (visualStatus l).bestIdx) := by
  simp only [visualStatus, List.singleton_append]

theorem visualStatus_printed (l : List OutboundStatus) :
    (visualStatus l).printed =
      if (visualStatus l).statusList.length > 0 then some (visualStatus l).rows else none := by
  simp only [visualStatus]

/-- The row rendered for the entry at position `i` of the sorted list. -/
theorem visualStatus_row (l : List OutboundStatus) (i : Nat) :
    (visualStatus l).rows[i + 1]? =
      ((visualStatus l).statusList[i]?).map (renderRow (visualStatus l).bestIdx i) := by
  rw [visualStatus_rows, List.getElem?_cons_succ, List.getElem?_mapIdx]

/-- The state of the search when `logVisualStatus` returns. -/
theorem visualStatus_spec (l : List OutboundStatus) :
    ((visualStatus l).bestIdx = -1 ∧
      ∀ s ∈ l, s.Alive = true → 99999999 ≤ s.Delay) ∨
    (∃ (k : Nat) (s : OutboundStatus), (visualStatus l).statusList[k]? = some s ∧
      (visualStatus l).bestIdx = (k : Int) ∧ s ∈ l ∧
      s.Alive = true ∧ s.Delay < 99999999 ∧
      (∀ t ∈ l, t.Alive = true → s.Delay ≤ t.Delay) ∧
      ∀ (j : Nat) (t : OutboundStatus), j < k → (visualStatus l).statusList[j]? = some t →
        t.Alive = true → s.Delay < t.Delay) := by
  rw [visualStatus_statusList, visualStatus_bestIdx]
  rcases findBest_spec (sortSlice l) with ⟨he, hall⟩ | ⟨k, s, hk, he, ha, hlt, hmin, hfirst⟩
  · exact Or.inl ⟨by rw [he], fun s hs => hall s (mem_sortSlice.mpr hs)⟩
  · refine Or.inr ⟨k, s, hk, by rw [he], ?_, ha, hlt, ?_, hfirst⟩
    · exact mem_sortSlice.mp (List.getElem?_mem hk)
    · exact fun t ht => hmin t (mem_sortSlice.mpr ht)

theorem renderRow_selected (b : Int) (i : Nat) (s : OutboundStatus)
    (ha : s.Alive = true) (hb : (i : Int) = b) :
    renderRow b i s =
      Row.candidate Style.selectedStyle "✅" s.OutboundTag (toString s.Delay ++ " ms") := by
  simp [renderRow, ha, hb]

/-! ## Best-candidate selection -/

/-- C1, counterexample.  The snapshot of a store whose only candidate is alive with an
average of 99,999,999 ms contains an alive entry, yet `logVisualStatus` ends with
`bestIdx = -1`, selects no position, and prints the entry as a neutral row. -/
theorem best_not_selected_at_sentinel :
    (∃ s ∈ createResult id (storeOf [("A", aliveStats 99999999)]), s.Alive = true) ∧
    (visualStatus (createResult id (storeOf [("A", aliveStats 99999999)]))).bestIdx = -1 ∧
    (¬ ∃ k : Nat,
      (visualStatus (createResult id (storeOf [("A", aliveStats 99999999)]))).bestIdx = k) ∧
    logVisualStatus id (storeOf [("A", aliveStats 99999999)]) =
      some [titleRow, Row.candidate Style.rowStyle "  " "A" "99999999 ms"] := by
  refine ⟨⟨outboundStatus id "A" (aliveStats 99999999), by decide, by decide⟩,
    by decide, ?_, by decide⟩
  rintro ⟨k, hk⟩
  have h : (visualStatus (createResult id (storeOf [("A", aliveStats 99999999)]))).bestIdx
      = -1 := by decide
  rw [h] at hk
  omega

/-- C1, as amended.  For every snapshot that contains an alive entry whose Delay is
below 99,999,999, `logVisualStatus` selects a position `k` of the sorted list whose
entry `best` belongs to the snapshot, is alive, has a Delay that is less than or equal
to the Delay of every alive entry of the snapshot, and is rendered as the selected row.
For the snapshot `[A alive 50, B alive 5, C dead]` the selected row is B, and for
`[A alive 50, B dead, C dead]` it is A. -/
theorem best_is_alive_minimum :
    (∀ statusList : List OutboundStatus,
      (∃ s ∈ statusList, s.Alive = true ∧ s.Delay < 99999999) →
      ∃ (k : Nat) (best : OutboundStatus),
        (visualStatus statusList).bestIdx = (k : Int) ∧
        (visualStatus statusList).statusList[k]? = some best ∧
        best ∈ statusList ∧ best.Alive = true ∧
        (∀ s ∈ statusList, s.Alive = true → best.Delay ≤ s.Delay) ∧
        (visualStatus statusList).rows[k + 1]? =
          some (Row.candidate Style.selectedStyle "✅" best.OutboundTag
            (toString best.Delay ++ " ms"))) ∧
    logVisualStatus id (storeOf [("A", aliveStats 50), ("B", aliveStats 5), ("C", deadStats)]) =
      some [titleRow,
        Row.candidate Style.rowStyle "  " "A" "50 ms",
        Row.candidate Style.selectedStyle "✅" "B" "5 ms",
        Row.candidate Style.deadStyle "💀" "C" "DEAD"] ∧
    logVisualStatus id (storeOf [("A", aliveStats 50), ("B", deadStats), ("C", deadStats)]) =
      some [titleRow,
        Row.candidate Style.selectedStyle "✅" "A" "50 ms",
        Row.candidate Style.deadStyle "💀" "B" "DEAD",
        Row.candidate Style.deadStyle "💀" "C" "DEAD"] := by
  refine ⟨?_, by decide, by decide⟩
  rintro statusList ⟨s₀, hs₀, ha₀, hd₀⟩
  rcases visualStatus_spec statusList with ⟨_, hall⟩ | ⟨k, s, hk, hb, hmem, ha, _, hmin, _⟩
  · exact absurd (hall s₀ hs₀ ha₀) (not_le.mpr hd₀)
  · refine ⟨k, s, hb, hk, hmem, ha, hmin, ?_⟩
    rw [visualStatus_row, hk, Option.map_some', renderRow_selected _ _ _ ha hb.symm]

/-- C1, witness: the general statement applied to the snapshot of the store
`[C dead, B alive 5, A alive 50]`, where the entry B satisfies the hypothesis. -/
theorem best_is_alive_minimum_witness :
    ∃ (k : Nat) (best : OutboundStatus),
      (visualStatus (createResult id
        (storeOf [("C", deadStats), ("B", aliveStats 5), ("A", aliveStats 50)]))).bestIdx
        = (k : Int) ∧
      (visualStatus (createResult id
        (storeOf [("C", deadStats), ("B", aliveStats 5), ("A", aliveStats 50)]))).statusList[k]?
        = some best ∧
      best ∈ createResult id
        (storeOf [("C", deadStats), ("B", aliveStats 5), ("A", aliveStats 50)]) ∧
      best.Alive = true ∧
      (∀ s ∈ createResult id
        (storeOf [("C", deadStats), ("B", aliveStats 5), ("A", aliveStats 50)]),
        s.Alive = true → best.Delay ≤ s.Delay) ∧
      (visualStatus (createResult id
        (storeOf [("C", deadStats), ("B", aliveStats 5), ("A", aliveStats 50)]))).rows[k + 1]?
        = some (Row.candidate Style.selectedStyle "✅" best.OutboundTag
            (toString best.Delay ++ " ms")) :=
  best_is_alive_minimum.1 _ ⟨outboundStatus id "B" (aliveStats 5), by decide, by decide, by decide⟩

/-- In a list ordered by `notAfter`, an element at an earlier position carries a tag
that is less than or equal to the tag of an element at a later position. -/
theorem tag_le_of_pairwise {l : List OutboundStatus} (h : l.Pairwise notAfter)
    {i j : Nat} {a b : OutboundStatus} (hi : l[i]? = some a) (hj : l[j]? = some b)
    (hij : i < j) : a.OutboundTag.data ≤ b.OutboundTag.data := by
  obtain ⟨hi', rfl⟩ := List.getElem?_eq_some.mp hi
  obtain ⟨hj', rfl⟩ := List.getElem?_eq_some.mp hj
  exact (notAfter_iff _ _).mp (List.pairwise_iff_getElem.mp h i j hi' hj' hij)

/-- C2.  Whenever `logVisualStatus` selects the position `k` as best, the entry `best`
at that position of the tag-sorted list is an alive entry of the snapshot with the
minimal Delay among the alive entries, and among the alive entries that share this
Delay it comes first in the sorted sequence and carries the lexicographically smallest
OutboundTag (strictly smallest when the tags of the snapshot are pairwise distinct). -/
theorem tie_broken_by_tag_order (statusList : List OutboundStatus) (k : Nat)
    (hb : (visualStatus statusList).bestIdx = (k : Int)) :
    ∃ best : OutboundStatus,
      (visualStatus statusList).statusList[k]? = some best ∧
      best ∈ statusList ∧ best.Alive = true ∧
      (∀ s ∈ statusList, s.Alive = true → best.Delay ≤ s.Delay) ∧
      (∀ (j : Nat) (t : OutboundStatus), (visualStatus statusList).statusList[j]? = some t →
        t.Alive = true → t.Delay = best.Delay → k ≤ j) ∧
      (∀ s ∈ statusList, s.Alive = true → s.Delay = best.Delay →
        best.OutboundTag.data ≤ s.OutboundTag.data) ∧
      ((statusList.map OutboundStatus.OutboundTag).Nodup →
        ∀ s ∈ statusList, s.Alive = true → s.Delay = best.Delay → s ≠ best →
          best.OutboundTag.data < s.OutboundTag.data) := by
  rcases visualStatus_spec statusList with ⟨hneg, _⟩ | ⟨k', s, hk, hb', hmem, ha, _, hmin, hfirst⟩
  · rw [hneg] at hb
    omega
  · have hkk : k' = k := by
      rw [hb'] at hb
      exact_mod_cast hb
    subst hkk
    have hpos : ∀ (j : Nat) (t : OutboundStatus),
        (visualStatus statusList).statusList[j]? = some t →
        t.Alive = true → t.Delay = s.Delay → k' ≤ j := by
      intro j t hj hta hd
      by_contra hlt
      have := hfirst j t (not_le.mp hlt) hj hta
      omega
    have hle : ∀ t ∈ statusList, t.Alive = true → t.Delay = s.Delay →
        s.OutboundTag.data ≤ t.OutboundTag.data := by
      intro t ht hta hd
      have ht' : t ∈ (visualStatus statusList).statusList := by
        rw [visualStatus_statusList]
        exact mem_sortSlice.mpr ht
      obtain ⟨j, hj⟩ := List.mem_iff_getElem?.mp ht'
      rcases Nat.lt_or_ge k' j with hlt | hge
      · have hsorted : (visualStatus statusList).statusList.Pairwise notAfter := by
          rw [visualStatus_statusList]
          exact sortSlice_sorted statusList
        exact tag_le_of_pairwise hsorted hk hj hlt
      · have hjk : j = k' := le_antisymm hge (hpos j t hj hta hd)
        subst hjk
        rw [hk] at hj
        cases hj
        exact le_refl _
    refine ⟨s, hk, hmem, ha, hmin, hpos, hle, ?_⟩
    intro hn t ht hta hd hne
    refine lt_of_le_of_ne (hle t ht hta hd) ?_
    intro heq
    exact hne (List.inj_on_of_nodup_map hn ht hmem (String.ext heq.symm))

/-- C2, witness: in the snapshot of the store `[b alive 5, a alive 5, c alive 7]` the
entries `a` and `b` share the minimal Delay and position 0 (the entry `a`) is selected. -/
theorem tie_broken_by_tag_order_witness :
    (visualStatus (createResult id
      (storeOf [("b", aliveStats 5), ("a", aliveStats 5), ("c", aliveStats 7)]))).statusList[0]?
      = some (outboundStatus id "a" (aliveStats 5)) ∧
    ∃ best : OutboundStatus,
      (visualStatus (createResult id
        (storeOf [("b", aliveStats 5), ("a", aliveStats 5), ("c", aliveStats 7)]))).statusList[0]?
        = some best ∧
      best ∈ createResult id
        (storeOf [("b", aliveStats 5), ("a", aliveStats 5), ("c", aliveStats 7)]) ∧
      best.Alive = true ∧
      (∀ s ∈ createResult id
        (storeOf [("b", aliveStats 5), ("a", aliveStats 5), ("c", aliveStats 7)]),
        s.Alive = true → best.Delay ≤ s.Delay) ∧
      (∀ (j : Nat) (t : OutboundStatus),
        (visualStatus (createResult id
          (storeOf [("b", aliveStats 5), ("a", aliveStats 5), ("c", aliveStats 7)]))).statusList[j]?
          = some t →
        t.Alive = true → t.Delay = best.Delay → 0 ≤ j) ∧
      (∀ s ∈ createResult id
        (storeOf [("b", aliveStats 5), ("a", aliveStats 5), ("c", aliveStats 7)]),
        s.Alive = true → s.Delay = best.Delay →
        best.OutboundTag.data ≤ s.OutboundTag.data) ∧
      (((createResult id
        (storeOf [("b", aliveStats 5), ("a", aliveStats 5), ("c", aliveStats 7)])).map
          OutboundStatus.OutboundTag).Nodup →
        ∀ s ∈ createResult id
          (storeOf [("b", aliveStats 5), ("a", aliveStats 5), ("c", aliveStats 7)]),
          s.Alive = true → s.Delay = best.Delay → s ≠ best →
          best.OutboundTag.data < s.OutboundTag.data) :=
  ⟨by decide, tie_broken_by_tag_order _ 0 (by decide)⟩

/-! ## The snapshot -/

theorem createResult_getElem? {R : Type} (getStatistics : R → HealthPingStats)
    (hp : HealthPing R) (i : Nat) :
    (createResult getStatistics hp)[i]? =
      (hp.Results[i]?).map fun p => outboundStatus getStatistics p.1 p.2 := by
  simp only [createResult, List.getElem?_map]

theorem mem_createResult {R : Type} (getStatistics : R → HealthPingStats)
    (hp : HealthPing R) (e : OutboundStatus) :
    e ∈ createResult getStatistics hp ↔
      ∃ p ∈ hp.Results, outboundStatus getStatistics p.1 p.2 = e := by
  simp only [createResult, List.mem_map]

theorem createResult_tags {R : Type} (getStatistics : R → HealthPingStats)
    (hp : HealthPing R) :
    (createResult getStatistics hp).map OutboundStatus.OutboundTag =
      hp.Results.map Prod.fst := by
  simp only [createResult, List.map_map]
  rfl

theorem wrapInt64_of_fits (x : Int) (hlo : -2 ^ 63 ≤ x) (hhi : x < 2 ^ 63) :
    wrapInt64 x = x := by
  unfold wrapInt64
  omega

/-- C3.  For the candidate tracked under `name` with map value `value`, the snapshot
holds at the same position an entry with that tag whose Alive flag is true exactly
when the statistics have All different from Fail; its counters are those of the
statistics, and every entry of the snapshot has Alive equal to the comparison of its
own counters, HealthPing.All different from HealthPing.Fail. -/
theorem alive_iff_all_ne_fail {R : Type} (getStatistics : R → HealthPingStats)
    (hp : HealthPing R) :
    (∀ (i : Nat) (name : String) (value : R), hp.Results[i]? = some (name, value) →
      ∃ e : OutboundStatus, (createResult getStatistics hp)[i]? = some e ∧
        e.OutboundTag = name ∧
        (e.Alive = true ↔ (getStatistics value).All ≠ (getStatistics value).Fail) ∧
        e.HealthPing.All = (getStatistics value).All ∧
        e.HealthPing.Fail = (getStatistics value).Fail) ∧
    (∀ e ∈ createResult getStatistics hp,
      e.Alive = decide (e.HealthPing.All ≠ e.HealthPing.Fail)) := by
  constructor
  · intro i name value h
    refine ⟨outboundStatus getStatistics name value, ?_, rfl, ?_, rfl, rfl⟩
    · rw [createResult_getElem?, h]
      rfl
    · simp [outboundStatus]
  · intro e he
    obtain ⟨p, _, rfl⟩ := (mem_createResult getStatistics hp e).mp he
    rfl

/-- C3, witness: the store `[A alive 50, C dead]`, whose second candidate has
All = Fail = 1, yields a dead entry for it and an alive one for the first. -/
theorem alive_iff_all_ne_fail_witness :
    (∃ e : OutboundStatus,
      (createResult id (storeOf [("A", aliveStats 50), ("C", deadStats)]))[1]? = some e ∧
        e.OutboundTag = "C" ∧
        (e.Alive = true ↔ (id deadStats).All ≠ (id deadStats).Fail) ∧
        e.HealthPing.All = (id deadStats).All ∧
        e.HealthPing.Fail = (id deadStats).Fail) ∧
    (createResult id (storeOf [("A", aliveStats 50), ("C", deadStats)])).map
      OutboundStatus.Alive = [true, false] :=
  ⟨(alive_iff_all_ne_fail id (storeOf [("A", aliveStats 50), ("C", deadStats)])).1
    1 "C" deadStats (by decide), by decide⟩

/-- C6.  For the candidate tracked under `name` with map value `value`, the Delay of
its snapshot entry is the Average of its statistics divided by 1,000,000 with
truncation, while HealthPing.Average, Deviation, Max and Min are the statistics'
values unchanged; hence every entry has Delay equal to HealthPing.Average divided by
1,000,000 (truncated), and an entry whose Average is positive and below one
millisecond has Delay 0. -/
theorem delay_is_average_in_milliseconds {R : Type} (getStatistics : R → HealthPingStats)
    (hp : HealthPing R) :
    (∀ (i : Nat) (name : String) (value : R), hp.Results[i]? = some (name, value) →
      ∃ e : OutboundStatus, (createResult getStatistics hp)[i]? = some e ∧
        e.OutboundTag = name ∧
        e.Delay = Int.tdiv (getStatistics value).Average 1000000 ∧
        e.HealthPing.Average = (getStatistics value).Average ∧
        e.HealthPing.Deviation = (getStatistics value).Deviation ∧
        e.HealthPing.Max = (getStatistics value).Max ∧
        e.HealthPing.Min = (getStatistics value).Min) ∧
    (∀ e ∈ createResult getStatistics hp,
      e.Delay = Int.tdiv e.HealthPing.Average 1000000) ∧
    (∀ e ∈ createResult getStatistics hp,
      0 < e.HealthPing.Average → e.HealthPing.Average < 1000000 → e.Delay = 0) := by
  have hall : ∀ e ∈ createResult getStatistics hp,
      e.Delay = Int.tdiv e.HealthPing.Average 1000000 := by
    intro e he
    obtain ⟨p, _, rfl⟩ := (mem_createResult getStatistics hp e).mp he
    rfl
  refine ⟨?_, hall, ?_⟩
  · intro i name value h
    refine ⟨outboundStatus getStatistics name value, ?_, rfl, rfl, rfl, rfl, rfl, rfl⟩
    rw [createResult_getElem?, h]
    rfl
  · intro e he hpos hlt
    rw [hall e he, Int.tdiv_eq_ediv (le_of_lt hpos) (by norm_num)]
    exact Int.ediv_eq_zero_of_lt (le_of_lt hpos) hlt

/-- C6, witness: a candidate whose Average is 999,999 ns (All 1, Fail 0) gets Delay 0
and keeps the Average 999,999 in its HealthPing record; one whose Average is
-1,500,000 ns gets Delay -1 (truncation toward zero). -/
theorem delay_is_average_in_milliseconds_witness :
    (∃ e : OutboundStatus,
      (createResult id (storeOf
        [("A", { All := 1, Fail := 0, Deviation := 3, Average := 999999,
                 Max := 7, Min := 5 })]))[0]? = some e ∧
        e.OutboundTag = "A" ∧
        e.Delay = Int.tdiv 999999 1000000 ∧
        e.HealthPing.Average = 999999 ∧
        e.HealthPing.Deviation = 3 ∧
        e.HealthPing.Max = 7 ∧
        e.HealthPing.Min = 5) ∧
    (createResult id (storeOf
        [("A", { All := 1, Fail := 0, Deviation := 3, Average := 999999,
                 Max := 7, Min := 5 }),
         ("B", { All := 1, Fail := 0, Deviation := 0, Average := -1500000,
                 Max := 0, Min := 0 })])).map OutboundStatus.Delay = [0, -1] :=
  ⟨(delay_is_average_in_milliseconds id (storeOf
      [("A", { All := 1, Fail := 0, Deviation := 3, Average := 999999,
               Max := 7, Min := 5 })])).1 0 "A"
      { All := 1, Fail := 0, Deviation := 3, Average := 999999, Max := 7, Min := 5 }
      (by decide),
    by decide⟩

/-- C7.  When the keys of the statistics store are pairwise distinct (as the keys of a
map are), the snapshot has one entry per tracked candidate: its length is the number
of entries of the store and the number of distinct tracked tags, its OutboundTags are
the tracked tags in the order of the enumeration, they are pairwise distinct, a tag
occurs in the snapshot exactly when it is tracked, and an empty store yields an empty
snapshot. -/
theorem one_entry_per_candidate {R : Type} (getStatistics : R → HealthPingStats)
    (hp : HealthPing R) (hkeys : (hp.Results.map Prod.fst).Nodup) :
    (createResult getStatistics hp).length = hp.Results.length ∧
    (createResult getStatistics hp).length = (hp.Results.map Prod.fst).toFinset.card ∧
    (createResult getStatistics hp).map OutboundStatus.OutboundTag =
      hp.Results.map Prod.fst ∧
    ((createResult getStatistics hp).map OutboundStatus.OutboundTag).Nodup ∧
    (∀ tag : String,
      tag ∈ (createResult getStatistics hp).map OutboundStatus.OutboundTag ↔
        tag ∈ hp.Results.map Prod.fst) ∧
    ((createResult getStatistics hp).map OutboundStatus.OutboundTag).toFinset =
      (hp.Results.map Prod.fst).toFinset ∧
    (hp.Results = [] → createResult getStatistics hp = []) := by
  have hlen : (createResult getStatistics hp).length = hp.Results.length := by
    simp only [createResult, List.length_map]
  refine ⟨hlen, ?_, createResult_tags getStatistics hp, ?_, ?_, ?_, ?_⟩
  · rw [hlen, List.toFinset_card_of_nodup hkeys, List.length_map]
  · rw [createResult_tags]
    exact hkeys
  · intro tag
    rw [createResult_tags]
  · rw [createResult_tags]
  · intro h
    simp only [createResult, h, List.map_nil]

/-- C7, witness: the store `[C dead, B alive 5, A alive 50]` has three distinct keys
and its snapshot has three entries tagged C, B, A. -/
theorem one_entry_per_candidate_witness :
    (createResult id
      (storeOf [("C", deadStats), ("B", aliveStats 5), ("A", aliveStats 50)])).length = 3 ∧
    ((createResult id
      (storeOf [("C", deadStats), ("B", aliveStats 5), ("A", aliveStats 50)])).map
        OutboundStatus.OutboundTag).Nodup ∧
    (createResult id
      (storeOf [("C", deadStats), ("B", aliveStats 5), ("A", aliveStats 50)])).map
        OutboundStatus.OutboundTag = ["C", "B", "A"] :=
  ⟨(one_entry_per_candidate id
      (storeOf [("C", deadStats), ("B", aliveStats 5), ("A", aliveStats 50)])
      (by decide)).1,
   (one_entry_per_candidate id
      (storeOf [("C", deadStats), ("B", aliveStats 5), ("A", aliveStats 50)])
      (by decide)).2.2.2.1,
   (one_entry_per_candidate id
      (storeOf [("C", deadStats), ("B", aliveStats 5), ("A", aliveStats 50)])
      (by decide)).2.2.1⟩

/-- C8.  For every store state in which each tracked candidate's statistics satisfy
Fail ≤ All, `GetObservation` returns, without error, the snapshot of that state, and
every entry of it has HealthPing.Fail ≤ HealthPing.All and is alive exactly when
HealthPing.Fail < HealthPing.All; no entry has Fail > All. -/
theorem observation_fail_le_all {R : Type} (getStatistics : R → HealthPingStats)
    (hp : HealthPing R)
    (hinv : ∀ p ∈ hp.Results, (getStatistics p.2).Fail ≤ (getStatistics p.2).All) :
    ∃ result : ObservationResult,
      GetObservation getStatistics hp = Except.ok result ∧
      result.Status = createResult getStatistics hp ∧
      ∀ e ∈ result.Status,
        e.HealthPing.Fail ≤ e.HealthPing.All ∧
        ¬ (e.HealthPing.All < e.HealthPing.Fail) ∧
        (e.Alive = true ↔ e.HealthPing.Fail < e.HealthPing.All) := by
  refine ⟨⟨createResult getStatistics hp⟩, rfl, rfl, ?_⟩
  intro e he
  obtain ⟨p, hp', rfl⟩ := (mem_createResult getStatistics hp e).mp he
  have h := hinv p hp'
  refine ⟨h, not_lt.mpr h, ?_⟩
  simp only [outboundStatus, decide_eq_true_eq]
  constructor
  · intro hne
    exact lt_of_le_of_ne h (Ne.symm hne)
  · intro hlt
    exact (ne_of_lt hlt).symm

/-- C8, witness: the store `[A alive 50, C dead]` satisfies Fail ≤ All for both
candidates (0 ≤ 1 and 1 ≤ 1). -/
theorem observation_fail_le_all_witness :
    (∀ p ∈ (storeOf [("A", aliveStats 50), ("C", deadStats)]).Results,
      (id p.2).Fail ≤ (id p.2).All) ∧
    ∃ result : ObservationResult,
      GetObservation id (storeOf [("A", aliveStats 50), ("C", deadStats)])
        = Except.ok result ∧
      result.Status = createResult id (storeOf [("A", aliveStats 50), ("C", deadStats)]) ∧
      ∀ e ∈ result.Status,
        e.HealthPing.Fail ≤ e.HealthPing.All ∧
        ¬ (e.HealthPing.All < e.HealthPing.Fail) ∧
        (e.Alive = true ↔ e.HealthPing.Fail < e.HealthPing.All) :=
  ⟨by decide,
   observation_fail_le_all id (storeOf [("A", aliveStats 50), ("C", deadStats)]) (by decide)⟩

/-! ## Cadence -/

/-- C10.  When `Settings.Interval` is non-zero the sleep duration is the `Duration`
product `Interval * SamplingCount` (64-bit arithmetic, which is the exact product
whenever that fits in an `int64`); when `Interval` is zero it is the fixed default of
10 seconds whatever `SamplingCount` is; and `Interval = 2s` with `SamplingCount = 1`
gives 2s. -/
theorem sleepTime_cadence (settings : HealthPingSettings) :
    (settings.Interval ≠ 0 →
      sleepTime settings = wrapInt64 (settings.Interval * settings.SamplingCount)) ∧
    (settings.Interval ≠ 0 →
      -2 ^ 63 ≤ settings.Interval * settings.SamplingCount →
      settings.Interval * settings.SamplingCount < 2 ^ 63 →
      sleepTime settings = settings.Interval * settings.SamplingCount) ∧
    (settings.Interval = 0 → sleepTime settings = 10 * Second) ∧
    (settings.Interval = 2 * Second → settings.SamplingCount = 1 →
      sleepTime settings = 2 * Second) := by
  have h1 : settings.Interval ≠ 0 →
      sleepTime settings = wrapInt64 (settings.Interval * settings.SamplingCount) := by
    intro h
    simp only [sleepTime, ne_eq, h, not_false_eq_true, if_true]
  refine ⟨h1, ?_, ?_, ?_⟩
  · intro h hlo hhi
    rw [h1 h, wrapInt64_of_fits _ hlo hhi]
  · intro h
    simp only [sleepTime, h, ne_eq, not_true_eq_false, if_false]
    exact mul_comm _ _
  · intro hI hS
    have hne : settings.Interval ≠ 0 := by
      rw [hI]
      decide
    rw [h1 hne, hI, hS]
    decide

/-- C10, witness: the settings of the integration test (interval 2s, sampling 1) give
2s; a zero interval with sampling 7 gives 10s. -/
theorem sleepTime_cadence_witness :
    sleepTime testSettings = 2 * Second ∧
    sleepTime zeroIntervalSettings = 10 * Second :=
  ⟨(sleepTime_cadence testSettings).2.2.2 (by decide) (by decide),
   (sleepTime_cadence zeroIntervalSettings).2.2.1 (by decide)⟩

/-! ## Rendering -/

theorem renderRow_dead (b : Int) (i : Nat) (s : OutboundStatus) (ha : s.Alive = false) :
    renderRow b i s = Row.candidate Style.deadStyle "💀" s.OutboundTag "DEAD" := by
  simp [renderRow, ha]

theorem renderRow_neutral (b : Int) (i : Nat) (s : OutboundStatus)
    (ha : s.Alive = true) (hb : (i : Int) ≠ b) :
    renderRow b i s =
      Row.candidate Style.rowStyle "  " s.OutboundTag (toString s.Delay ++ " ms") := by
  simp [renderRow, ha, hb]

theorem renderRow_tag (b : Int) (i : Nat) (s : OutboundStatus) :
    (renderRow b i s).tag? = some s.OutboundTag := by
  cases ha : s.Alive
  · rw [renderRow_dead b i s ha]; rfl
  · by_cases hb : (i : Int) = b
    · rw [renderRow_selected b i s ha hb]; rfl
    · rw [renderRow_neutral b i s ha hb]; rfl

/-- The text `"<Delay> ms"` is never the text `"DEAD"`: it ends in `s`. -/
theorem latency_ne_dead (d : Int) : toString d ++ " ms" ≠ "DEAD" := by
  intro h
  have h2 := congrArg (fun s : String => s.data.getLast?) h
  simp only [String.data_append] at h2
  rw [show ([' ', 'm', 's'] : List Char) = [' ', 'm'] ++ ['s'] from rfl, ← List.append_assoc,
    List.getLast?_concat] at h2
  exact absurd h2 (by decide)

/-- The style, tag and latency text of the row rendered for one entry. -/
theorem renderRow_classes (b : Int) (i : Nat) (s : OutboundStatus) :
    (renderRow b i s).tag? = some s.OutboundTag ∧
    ((renderRow b i s).style = Style.deadStyle ∨
      (renderRow b i s).style = Style.selectedStyle ∨
      (renderRow b i s).style = Style.rowStyle) ∧
    ((renderRow b i s).style = Style.deadStyle ↔ s.Alive = false) ∧
    ((renderRow b i s).latency? = some "DEAD" ↔ s.Alive = false) ∧
    ((renderRow b i s).style = Style.selectedStyle ↔ s.Alive = true ∧ (i : Int) = b) ∧
    ((renderRow b i s).style = Style.rowStyle ↔ s.Alive = true ∧ (i : Int) ≠ b) ∧
    (s.Alive = true → (renderRow b i s).latency? = some (toString s.Delay ++ " ms")) := by
  refine ⟨renderRow_tag b i s, ?_⟩
  cases ha : s.Alive
  · rw [renderRow_dead b i s ha]
    simp [Row.style, Row.latency?]
  · by_cases hb : (i : Int) = b
    · rw [renderRow_selected b i s ha hb]
      simp [Row.style, Row.latency?, hb, latency_ne_dead]
    · rw [renderRow_neutral b i s ha hb]
      simp [Row.style, Row.latency?, hb, latency_ne_dead]

/-- C4.  In the status view every entry of the sorted list gets one row, which carries
the entry's tag and falls in exactly one of three classes: it is marked dead (dead
style, latency text "DEAD") if and only if the entry's Alive flag is false; it is
marked selected if and only if the entry is alive and stands at the best position;
otherwise (alive, not at the best position) it is neutral, and an alive entry shows
"<Delay> ms".  At most one row is marked selected and the row of a dead entry is never
marked selected. -/
theorem status_view_classes (statusList : List OutboundStatus) :
    (∀ (i : Nat) (status : OutboundStatus),
      (visualStatus statusList).statusList[i]? = some status →
      ∃ row : Row, (visualStatus statusList).rows[i + 1]? = some row ∧
        row.tag? = some status.OutboundTag ∧
        (row.style = Style.deadStyle ∨ row.style = Style.selectedStyle ∨
          row.style = Style.rowStyle) ∧
        (row.style = Style.deadStyle ↔ status.Alive = false) ∧
        (row.latency? = some "DEAD" ↔ status.Alive = false) ∧
        (row.style = Style.selectedStyle ↔
          status.Alive = true ∧ (i : Int) = (visualStatus statusList).bestIdx) ∧
        (row.style = Style.rowStyle ↔
          status.Alive = true ∧ (i : Int) ≠ (visualStatus statusList).bestIdx) ∧
        (status.Alive = true → row.latency? = some (toString status.Delay ++ " ms"))) ∧
    (∀ (i j : Nat) (row row' : Row),
      (visualStatus statusList).rows[i]? = some row →
      (visualStatus statusList).rows[j]? = some row' →
      row.style = Style.selectedStyle → row'.style = Style.selectedStyle → i = j) ∧
    (∀ (i : Nat) (status : OutboundStatus) (row : Row),
      (visualStatus statusList).statusList[i]? = some status →
      (visualStatus statusList).rows[i + 1]? = some row →
      status.Alive = false → row.style ≠ Style.selectedStyle) := by
  have hsel : ∀ (i : Nat) (row : Row), (visualStatus statusList).rows[i]? = some row →
      row.style = Style.selectedStyle →
      ((i : Int) = (visualStatus statusList).bestIdx + 1) := by
    intro i row hi hs
    cases i with
    | zero =>
      rw [visualStatus_rows, List.getElem?_cons_zero] at hi
      cases hi
      exact absurd hs (by decide)
    | succ i =>
      rw [visualStatus_row] at hi
      cases hst : (visualStatus statusList).statusList[i]? with
      | none => rw [hst] at hi; cases hi
      | some st =>
        rw [hst, Option.map_some'] at hi
        cases hi
        have := ((renderRow_classes (visualStatus statusList).bestIdx i st).2.2.2.2.1.mp hs).2
        push_cast
        omega
  refine ⟨?_, ?_, ?_⟩
  · intro i status hi
    refine ⟨renderRow (visualStatus statusList).bestIdx i status, ?_,
      renderRow_classes (visualStatus statusList).bestIdx i status⟩
    rw [visualStatus_row, hi, Option.map_some']
  · intro i j row row' hi hj hs hs'
    have h1 := hsel i row hi hs
    have h2 := hsel j row' hj hs'
    omega
  · intro i status row hi hrow hdead hs
    rw [visualStatus_row, hi, Option.map_some'] at hrow
    cases hrow
    have := ((renderRow_classes (visualStatus statusList).bestIdx i status).2.2.2.2.1.mp hs).1
    rw [hdead] at this
    cases this

/-- C4, witness: in the view of the snapshot of `[C dead, B alive 5, A alive 50]` the
entry at position 2 of the sorted list is C, and its row is the dead one. -/
theorem status_view_classes_witness :
    (visualStatus (createResult id
      (storeOf [("C", deadStats), ("B", aliveStats 5), ("A", aliveStats 50)]))).rows =
      [titleRow,
        Row.candidate Style.rowStyle "  " "A" "50 ms",
        Row.candidate Style.selectedStyle "✅" "B" "5 ms",
        Row.candidate Style.deadStyle "💀" "C" "DEAD"] ∧
    ∃ row : Row,
      (visualStatus (createResult id
        (storeOf [("C", deadStats), ("B", aliveStats 5), ("A", aliveStats 50)]))).rows[2 + 1]?
        = some row ∧
      row.tag? = some (outboundStatus id "C" deadStats).OutboundTag ∧
      (row.style = Style.deadStyle ∨ row.style = Style.selectedStyle ∨
        row.style = Style.rowStyle) ∧
      (row.style = Style.deadStyle ↔ (outboundStatus id "C" deadStats).Alive = false) ∧
      (row.latency? = some "DEAD" ↔ (outboundStatus id "C" deadStats).Alive = false) ∧
      (row.style = Style.selectedStyle ↔
        (outboundStatus id "C" deadStats).Alive = true ∧
        ((2 : Nat) : Int) = (visualStatus (createResult id
          (storeOf [("C", deadStats), ("B", aliveStats 5), ("A", aliveStats 50)]))).bestIdx) ∧
      (row.style = Style.rowStyle ↔
        (outboundStatus id "C" deadStats).Alive = true ∧
        ((2 : Nat) : Int) ≠ (visualStatus (createResult id
          (storeOf [("C", deadStats), ("B", aliveStats 5), ("A", aliveStats 50)]))).bestIdx) ∧
      ((outboundStatus id "C" deadStats).Alive = true →
        row.latency? = some (toString (outboundStatus id "C" deadStats).Delay ++ " ms")) :=
  ⟨by decide,
   (status_view_classes (createResult id
      (storeOf [("C", deadStats), ("B", aliveStats 5), ("A", aliveStats 50)]))).1
      2 (outboundStatus id "C" deadStats) (by decide)⟩

/-- The tags shown by the candidate rows are the tags of the rendered list, in order. -/
theorem filterMap_tag_mapIdx (b : Int) (l : List OutboundStatus) :
    (l.mapIdx (renderRow b)).filterMap Row.tag? = l.map OutboundStatus.OutboundTag := by
  rw [List.mapIdx_eq_enum_map, List.filterMap_map]
  have h : (Row.tag? ∘ Function.uncurry (renderRow b))
      = (some ∘ (OutboundStatus.OutboundTag ∘ Prod.snd)) := by
    funext p
    exact renderRow_tag b p.1 p.2
  rw [h, List.filterMap_eq_map, ← List.map_map, List.enum_map_snd]

theorem visualStatus_tags (l : List OutboundStatus) :
    (visualStatus l).rows.filterMap Row.tag? =
      (visualStatus l).statusList.map OutboundStatus.OutboundTag := by
  rw [visualStatus_rows]
  simp only [List.filterMap_cons, titleRow, Row.tag?]
  exact filterMap_tag_mapIdx _ _

/-- C5.  The list rendered by `logVisualStatus` is a permutation of the snapshot
returned by `createResult` and is in ascending OutboundTag order (strictly ascending
when the keys of the store are pairwise distinct); the rows are the title followed by
one row per element of that list, in that order, each showing the tag of its entry
and either "DEAD" or the entry's Delay; so the tags shown by the candidate rows are a
permutation of the tracked tags in ascending order, and these rows are what is printed
when the store is not empty. -/
theorem rows_sorted_permutation {R : Type} (getStatistics : R → HealthPingStats)
    (hp : HealthPing R) :
    (visualStatus (createResult getStatistics hp)).statusList.Perm
      (createResult getStatistics hp) ∧
    (visualStatus (createResult getStatistics hp)).statusList.Pairwise
      (fun a b => a.OutboundTag.data ≤ b.OutboundTag.data) ∧
    (visualStatus (createResult getStatistics hp)).rows =
      titleRow :: (visualStatus (createResult getStatistics hp)).statusList.mapIdx
        (renderRow (visualStatus (createResult getStatistics hp)).bestIdx) ∧
    (∀ (i : Nat) (status : OutboundStatus),
      (visualStatus (createResult getStatistics hp)).statusList[i]? = some status →
      ∃ row : Row,
        (visualStatus (createResult getStatistics hp)).rows[i + 1]? = some row ∧
        row.tag? = some status.OutboundTag ∧
        row.latency? =
          some (if status.Alive = true then toString status.Delay ++ " ms" else "DEAD")) ∧
    (visualStatus (createResult getStatistics hp)).rows.length =
      (createResult getStatistics hp).length + 1 ∧
    ((visualStatus (createResult getStatistics hp)).rows.filterMap Row.tag?).Perm
      (hp.Results.map Prod.fst) ∧
    ((visualStatus (createResult getStatistics hp)).rows.filterMap Row.tag?).Pairwise
      (fun a b => a.data ≤ b.data) ∧
    ((hp.Results.map Prod.fst).Nodup →
      ((visualStatus (createResult getStatistics hp)).rows.filterMap Row.tag?).Pairwise
        (fun a b => a.data < b.data)) ∧
    (hp.Results ≠ [] →
      logVisualStatus getStatistics hp =
        some (visualStatus (createResult getStatistics hp)).rows) := by
  have hperm : (visualStatus (createResult getStatistics hp)).statusList.Perm
      (createResult getStatistics hp) := by
    rw [visualStatus_statusList]
    exact sortSlice_perm _
  have hsorted : (visualStatus (createResult getStatistics hp)).statusList.Pairwise
      (fun a b => a.OutboundTag.data ≤ b.OutboundTag.data) := by
    rw [visualStatus_statusList]
    exact (sortSlice_sorted _).imp fun {a b} h => (notAfter_iff a b).mp h
  have htagperm :
      ((visualStatus (createResult getStatistics hp)).rows.filterMap Row.tag?).Perm
        (hp.Results.map Prod.fst) := by
    rw [visualStatus_tags, ← createResult_tags getStatistics hp]
    exact hperm.map _
  have htagsorted :
      ((visualStatus (createResult getStatistics hp)).rows.filterMap Row.tag?).Pairwise
        (fun a b => a.data ≤ b.data) := by
    rw [visualStatus_tags, List.pairwise_map]
    exact hsorted
  refine ⟨hperm, hsorted, visualStatus_rows _, ?_, ?_, htagperm, htagsorted, ?_, ?_⟩
  · intro i status hi
    refine ⟨renderRow (visualStatus (createResult getStatistics hp)).bestIdx i status, ?_,
      renderRow_tag _ _ _, ?_⟩
    · rw [visualStatus_row, hi, Option.map_some']
    · cases ha : status.Alive
      · rw [renderRow_dead _ _ _ ha]
        simp [Row.latency?]
      · by_cases hb : (i : Int) = (visualStatus (createResult getStatistics hp)).bestIdx
        · rw [renderRow_selected _ _ _ ha hb]
          simp [Row.latency?]
        · rw [renderRow_neutral _ _ _ ha hb]
          simp [Row.latency?]
  · rw [visualStatus_rows, List.length_cons, List.length_mapIdx, hperm.length_eq]
  · intro hn
    have hnd :
        ((visualStatus (createResult getStatistics hp)).rows.filterMap Row.tag?).Nodup :=
      htagperm.nodup_iff.mpr hn
    have hboth := htagsorted.and hnd
    refine hboth.imp ?_
    intro a b hab
    exact lt_of_le_of_ne hab.1 fun h => hab.2 (String.ext h)
  · intro hne
    unfold logVisualStatus
    rw [visualStatus_printed, if_pos]
    rw [hperm.length_eq]
    simp only [createResult, List.length_map]
    exact List.length_pos.mpr hne

/-- C5, witness: the store `[C dead, B alive 5, A alive 50]` has distinct keys and is
not empty; its rows show the tags A, B, C in this order. -/
theorem rows_sorted_permutation_witness :
    ((visualStatus (createResult id
      (storeOf [("C", deadStats), ("B", aliveStats 5), ("A", aliveStats 50)]))).rows.filterMap
        Row.tag?) = ["A", "B", "C"] ∧
    ((visualStatus (createResult id
      (storeOf [("C", deadStats), ("B", aliveStats 5), ("A", aliveStats 50)]))).rows.filterMap
        Row.tag?).Pairwise (fun a b => a.data < b.data) ∧
    logVisualStatus id
      (storeOf [("C", deadStats), ("B", aliveStats 5), ("A", aliveStats 50)]) =
      some (visualStatus (createResult id
        (storeOf [("C", deadStats), ("B", aliveStats 5), ("A", aliveStats 50)]))).rows :=
  ⟨by decide,
   (rows_sorted_permutation id
      (storeOf [("C", deadStats), ("B", aliveStats 5), ("A", aliveStats 50)])).2.2.2.2.2.2.2.1
      (by decide),
   (rows_sorted_permutation id
      (storeOf [("C", deadStats), ("B", aliveStats 5), ("A", aliveStats 50)])).2.2.2.2.2.2.2.2
      (by decide)⟩

/-- C9.  `logVisualStatus` prints nothing when the snapshot is empty (that is, when the
store tracks no candidate), and when the snapshot has `n ≥ 1` entries it prints exactly
one box, whose rows are the title row followed by `n` candidate rows. -/
theorem prints_one_box_or_nothing {R : Type} (getStatistics : R → HealthPingStats)
    (hp : HealthPing R) :
    (createResult getStatistics hp = [] → logVisualStatus getStatistics hp = none) ∧
    (hp.Results = [] → logVisualStatus getStatistics hp = none) ∧
    (∀ n : Nat, (createResult getStatistics hp).length = n → 1 ≤ n →
      ∃ rows : List Row,
        logVisualStatus getStatistics hp = some (titleRow :: rows) ∧
        rows.length = n ∧
        ∀ r ∈ rows, ∃ (style : Style) (icon tag latency : String),
          r = Row.candidate style icon tag latency ∧ style ≠ Style.titleStyle) := by
  have hlen : (visualStatus (createResult getStatistics hp)).statusList.length =
      (createResult getStatistics hp).length := by
    rw [visualStatus_statusList, length_sortSlice]
  have hnil : createResult getStatistics hp = [] →
      logVisualStatus getStatistics hp = none := by
    intro h
    unfold logVisualStatus
    rw [visualStatus_printed, if_neg]
    rw [hlen, h]
    decide
  refine ⟨hnil, ?_, ?_⟩
  · intro h
    apply hnil
    simp only [createResult, h, List.map_nil]
  · intro n hn hpos
    refine ⟨(visualStatus (createResult getStatistics hp)).statusList.mapIdx
      (renderRow (visualStatus (createResult getStatistics hp)).bestIdx), ?_, ?_, ?_⟩
    · unfold logVisualStatus
      rw [visualStatus_printed, if_pos (by omega), visualStatus_rows]
    · rw [List.length_mapIdx, hlen, hn]
    · intro r hr
      obtain ⟨i, hi, rfl⟩ := List.mem_mapIdx.mp hr
      generalize (visualStatus (createResult getStatistics hp)).bestIdx = b
      generalize (visualStatus (createResult getStatistics hp)).statusList[i] = s
      cases ha : s.Alive
      · exact ⟨_, _, _, _, renderRow_dead b i s ha, by decide⟩
      · by_cases hb : (i : Int) = b
        · exact ⟨_, _, _, _, renderRow_selected b i s ha hb, by decide⟩
        · exact ⟨_, _, _, _, renderRow_neutral b i s ha hb, by decide⟩

/-- C9, witness: an empty store prints nothing; the store `[C dead, B alive 5]`, whose
snapshot has 2 entries, prints the title and 2 candidate rows. -/
theorem prints_one_box_or_nothing_witness :
    logVisualStatus id (storeOf []) = none ∧
    logVisualStatus id (storeOf [("C", deadStats), ("B", aliveStats 5)]) =
      some [titleRow,
        Row.candidate Style.selectedStyle "✅" "B" "5 ms",
        Row.candidate Style.deadStyle "💀" "C" "DEAD"] ∧
    ∃ rows : List Row,
      logVisualStatus id (storeOf [("C", deadStats), ("B", aliveStats 5)]) =
        some (titleRow :: rows) ∧
      rows.length = 2 ∧
      ∀ r ∈ rows, ∃ (style : Style) (icon tag latency : String),
        r = Row.candidate style icon tag latency ∧ style ≠ Style.titleStyle :=
  ⟨(prints_one_box_or_nothing id (storeOf [])).2.1 (by decide),
   by decide,
   (prints_one_box_or_nothing id (storeOf [("C", deadStats), ("B", aliveStats 5)])).2.2
      2 (by decide) (by decide)⟩

/-! ## Lifecycle of the observer -/

/-- What `Start` does when the subject set is not empty. -/
theorem Start_of_subjects {R : Type} (o : Observer R) (config : Config)
    (hc : o.config = some config) (hne : config.SubjectSelector ≠ []) :
    Start o =
      { o := { o with finished := some done.New }
        err := none
        calls := [Call.StartScheduler (fun _ => candidateProvider o.ohm config),
                  Call.goBackground] } := by
  have hlen : config.SubjectSelector.length ≠ 0 := fun h => hne (List.length_eq_zero.mp h)
  simp only [Start, hc, hlen, ne_eq, not_false_eq_true, if_true]

/-- What `Start` does when the configuration is absent or the subject set is empty. -/
theorem Start_of_no_subjects {R : Type} (o : Observer R)
    (h : o.config = none ∨ ∃ config, o.config = some config ∧ config.SubjectSelector = []) :
    Start o = { o := o, err := none, calls := [] } := by
  rcases h with h | ⟨config, hc, he⟩
  · simp only [Start, h]
  · simp [Start, hc, he]

theorem Close_of_unstarted {R : Type} (o : Observer R) (h : o.finished = none) :
    Close o = { o := o, err := none, calls := [] } := by
  simp only [Close, h]

theorem Close_of_started {R : Type} (o : Observer R) (finished : done.Instance)
    (h : o.finished = some finished) :
    Close o =
      { o := { o with finished := some { closed := true } }
        err := none
        calls := [Call.StopScheduler] } := by
  simp only [Close, h, done.Instance.Close]

/-- C11, counterexample.  With the subject set `out_fast`, `out_slow` and an outbound
manager that is not a `HandlerSelector`, `Start` returns a nil error, creates the
lifecycle signal, starts the Scheduler (one selector handed over, state `Running`) and
launches the reporting loop. -/
theorem start_succeeds_without_capability :
    testConfig.SubjectSelector ≠ [] ∧
    (Start (observerOf (some testConfig) OutboundManager.plain sampleStore)).err = none ∧
    (Start (observerOf (some testConfig) OutboundManager.plain sampleStore)).o.finished
      = some done.New ∧
    (providers
      (Start (observerOf (some testConfig) OutboundManager.plain sampleStore)).calls).length
      = 1 ∧
    SchedulerState.after SchedulerState.Created
      (Start (observerOf (some testConfig) OutboundManager.plain sampleStore)).calls
      = SchedulerState.Running ∧
    launches (Start (observerOf (some testConfig) OutboundManager.plain sampleStore)).calls
      = 1 := by
  refine ⟨by decide, by decide, by decide, by decide, by decide, by decide⟩

/-- C11, as amended.  When the configured subject set is non-empty and the outbound
manager is not a `HandlerSelector`, `Start` returns a nil error, creates the lifecycle
signal, calls `StartScheduler` and launches the reporting loop; the capability-missing
error is what the candidate provider handed to the Scheduler returns, on every call and
with no candidate list, so the Scheduler is never given a candidate to probe. -/
theorem capability_missing_in_provider {R : Type} (o : Observer R) (config : Config)
    (hc : o.config = some config) (hne : config.SubjectSelector ≠ [])
    (hohm : o.ohm = OutboundManager.plain) :
    (Start o).err = none ∧
    (Start o).o = { o with finished := some done.New } ∧
    SchedulerState.after SchedulerState.Created (Start o).calls = SchedulerState.Running ∧
    ∃ selector : Unit → Except String (List String),
      (Start o).calls = [Call.StartScheduler selector, Call.goBackground] ∧
      selector () = Except.error "outbound.Manager is not a HandlerSelector" ∧
      ∀ tags : List String, selector () ≠ Except.ok tags := by
  rw [Start_of_subjects o config hc hne]
  refine ⟨rfl, rfl, rfl, fun _ => candidateProvider o.ohm config, rfl, ?_, ?_⟩
  · simp only [hohm, candidateProvider]
  · intro tags h
    simp only [hohm, candidateProvider] at h
    cases h

/-- C11, witness: the observer of the counterexample. -/
theorem capability_missing_in_provider_witness :
    (Start (observerOf (some testConfig) OutboundManager.plain sampleStore)).err = none ∧
    (Start (observerOf (some testConfig) OutboundManager.plain sampleStore)).o =
      { observerOf (some testConfig) OutboundManager.plain sampleStore with
        finished := some done.New } ∧
    SchedulerState.after SchedulerState.Created
      (Start (observerOf (some testConfig) OutboundManager.plain sampleStore)).calls
      = SchedulerState.Running ∧
    ∃ selector : Unit → Except String (List String),
      (Start (observerOf (some testConfig) OutboundManager.plain sampleStore)).calls
        = [Call.StartScheduler selector, Call.goBackground] ∧
      selector () = Except.error "outbound.Manager is not a HandlerSelector" ∧
      ∀ tags : List String, selector () ≠ Except.ok tags :=
  capability_missing_in_provider
    (observerOf (some testConfig) OutboundManager.plain sampleStore) testConfig
    rfl (by decide) rfl

/-- C12.  When the configuration is absent or its subject set is empty, `Start` returns
a nil error and does nothing else: the observer is unchanged (in particular no
lifecycle signal is created), no call is made, so the Scheduler is not started and no
reporting loop is launched. -/
theorem start_noop_without_subjects {R : Type} (o : Observer R)
    (h : o.config = none ∨ ∃ config, o.config = some config ∧ config.SubjectSelector = []) :
    (Start o).err = none ∧
    (Start o).o = o ∧
    (Start o).o.finished = o.finished ∧
    (Start o).calls = [] ∧
    providers (Start o).calls = [] ∧
    launches (Start o).calls = 0 ∧
    ∀ s : SchedulerState, s.after (Start o).calls = s := by
  rw [Start_of_no_subjects o h]
  exact ⟨rfl, rfl, rfl, rfl, rfl, rfl, fun _ => rfl⟩

/-- C12, witness: an observer without configuration and one with an empty subject
set. -/
theorem start_noop_without_subjects_witness :
    (Start (observerOf none OutboundManager.plain sampleStore)).o.finished = none ∧
    (Start (observerOf none OutboundManager.plain sampleStore)).calls = [] ∧
    (Start (observerOf (some emptyConfig) (OutboundManager.handlerSelector selectFast)
      sampleStore)).err = none ∧
    (Start (observerOf (some emptyConfig) (OutboundManager.handlerSelector selectFast)
      sampleStore)).calls = [] :=
  ⟨(start_noop_without_subjects (observerOf none OutboundManager.plain sampleStore)
      (Or.inl rfl)).2.2.1,
   (start_noop_without_subjects (observerOf none OutboundManager.plain sampleStore)
      (Or.inl rfl)).2.2.2.1,
   (start_noop_without_subjects
      (observerOf (some emptyConfig) (OutboundManager.handlerSelector selectFast) sampleStore)
      (Or.inr ⟨emptyConfig, rfl, rfl⟩)).1,
   (start_noop_without_subjects
      (observerOf (some emptyConfig) (OutboundManager.handlerSelector selectFast) sampleStore)
      (Or.inr ⟨emptyConfig, rfl, rfl⟩)).2.2.2.1⟩

/-- C13.  `Close` on an observer that has no lifecycle signal (its `Start` was never
called) returns a nil error, makes no call, in particular no `StopScheduler`, and
leaves the observer unchanged; the same holds after a `Start` that was a no-op because
the configuration is absent or the subject set is empty. -/
theorem close_unstarted_noop {R : Type} (o : Observer R) (h : o.finished = none) :
    (Close o).err = none ∧
    (Close o).o = o ∧
    (Close o).calls = [] ∧
    stops (Close o).calls = 0 ∧
    ((o.config = none ∨ ∃ config, o.config = some config ∧ config.SubjectSelector = []) →
      (Close (Start o).o).err = none ∧
      (Close (Start o).o).o = o ∧
      (Close (Start o).o).calls = [] ∧
      stops ((Start o).calls ++ (Close (Start o).o).calls) = 0) := by
  rw [Close_of_unstarted o h]
  refine ⟨rfl, rfl, rfl, rfl, ?_⟩
  intro hcfg
  rw [Start_of_no_subjects o hcfg]
  show (Close o).err = none ∧ (Close o).o = o ∧ (Close o).calls = [] ∧
    stops ([] ++ (Close o).calls) = 0
  rw [Close_of_unstarted o h]
  exact ⟨rfl, rfl, rfl, rfl⟩

/-- C13, witness: a fresh observer with the test configuration, never started, and a
fresh observer with an empty subject set after its no-op `Start`. -/
theorem close_unstarted_noop_witness :
    (Close (observerOf (some testConfig) OutboundManager.plain sampleStore)).err = none ∧
    (Close (observerOf (some testConfig) OutboundManager.plain sampleStore)).calls = [] ∧
    (Close (Start (observerOf (some emptyConfig) OutboundManager.plain sampleStore)).o).calls
      = [] :=
  ⟨(close_unstarted_noop
      (observerOf (some testConfig) OutboundManager.plain sampleStore) rfl).1,
   (close_unstarted_noop
      (observerOf (some testConfig) OutboundManager.plain sampleStore) rfl).2.2.1,
   ((close_unstarted_noop
      (observerOf (some emptyConfig) OutboundManager.plain sampleStore) rfl).2.2.2.2
      (Or.inr ⟨emptyConfig, rfl, rfl⟩)).2.2.1⟩

/-- Modelled Scheduler: a second Stop changes nothing. -/
theorem SchedulerState.stop_stop (s : SchedulerState) :
    (s.after [Call.StopScheduler]).after [Call.StopScheduler] =
      s.after [Call.StopScheduler] := by
  cases s <;> rfl

/-- C14.  After a `Start` with a non-empty subject set, two calls of `Close` both
return a nil error, and the state after the second equals the state after the first:
the observer is the same, with its lifecycle signal closed, and the Scheduler, started
by `Start`, is stopped after the first `Close` and still stopped after the second
(whatever state the Scheduler is in, the second `StopScheduler` changes nothing). -/
theorem close_idempotent {R : Type} (o : Observer R) (config : Config)
    (hc : o.config = some config) (hne : config.SubjectSelector ≠ []) :
    (Close (Start o).o).err = none ∧
    (Close (Close (Start o).o).o).err = none ∧
    (Close (Close (Start o).o).o).o = (Close (Start o).o).o ∧
    (Close (Start o).o).o.finished = some { closed := true } ∧
    SchedulerState.after SchedulerState.Created
      ((Start o).calls ++ (Close (Start o).o).calls) = SchedulerState.Stopped ∧
    SchedulerState.after SchedulerState.Created
      ((Start o).calls ++ (Close (Start o).o).calls ++ (Close (Close (Start o).o).o).calls)
      = SchedulerState.Stopped ∧
    ∀ s : SchedulerState,
      (s.after (Close (Start o).o).calls).after (Close (Close (Start o).o).o).calls =
        s.after (Close (Start o).o).calls := by
  rw [Start_of_subjects o config hc hne]
  rw [Close_of_started { o with finished := some done.New } done.New rfl]
  rw [Close_of_started _ { closed := true } rfl]
  exact ⟨rfl, rfl, rfl, rfl, rfl, rfl, SchedulerState.stop_stop⟩

/-- C14, witness: the observer of the integration test (subject set `out_fast`,
`out_slow`), started and closed twice. -/
theorem close_idempotent_witness :
    (Close (Start (observerOf (some testConfig)
      (OutboundManager.handlerSelector selectFast) sampleStore)).o).err = none ∧
    (Close (Close (Start (observerOf (some testConfig)
      (OutboundManager.handlerSelector selectFast) sampleStore)).o).o).err = none ∧
    (Close (Close (Start (observerOf (some testConfig)
      (OutboundManager.handlerSelector selectFast) sampleStore)).o).o).o =
      (Close (Start (observerOf (some testConfig)
        (OutboundManager.handlerSelector selectFast) sampleStore)).o).o :=
  ⟨(close_idempotent (observerOf (some testConfig)
      (OutboundManager.handlerSelector selectFast) sampleStore) testConfig rfl
      (by decide)).1,
   (close_idempotent (observerOf (some testConfig)
      (OutboundManager.handlerSelector selectFast) sampleStore) testConfig rfl
      (by decide)).2.1,
   (close_idempotent (observerOf (some testConfig)
      (OutboundManager.handlerSelector selectFast) sampleStore) testConfig rfl
      (by decide)).2.2.1⟩

/-- C17.  With a non-empty subject set, `Start` hands exactly one candidate provider
to the Scheduler, bound to the configured subject set: when the outbound manager
implements `HandlerSelector` the provider returns exactly `Select(SubjectSelector)`
with no error, and it returns an error (and so no candidates) if and only if the
outbound manager does not implement `HandlerSelector`. -/
theorem provider_bound_to_subjects {R : Type} (o : Observer R) (config : Config)
    (hc : o.config = some config) (hne : config.SubjectSelector ≠ []) :
    ∃ selector : Unit → Except String (List String),
      (Start o).calls = [Call.StartScheduler selector, Call.goBackground] ∧
      providers (Start o).calls = [selector] ∧
      (∀ Select : List String → List String,
        o.ohm = OutboundManager.handlerSelector Select →
        selector () = Except.ok (Select config.SubjectSelector)) ∧
      ((∃ msg : String, selector () = Except.error msg) ↔ o.ohm = OutboundManager.plain) ∧
      (o.ohm = OutboundManager.plain →
        selector () = Except.error "outbound.Manager is not a HandlerSelector") := by
  rw [Start_of_subjects o config hc hne]
  refine ⟨fun _ => candidateProvider o.ohm config, rfl, rfl, ?_, ?_, ?_⟩
  · intro Select h
    simp only [h, candidateProvider]
  · cases hohm : o.ohm with
    | plain => simp [candidateProvider]
    | handlerSelector Select => simp [candidateProvider]
  · intro h
    simp only [h, candidateProvider]

/-- C17, witness: with the subject set `out_fast`, `out_slow` and a `Select` that
drops `out_slow`, the provider handed over returns `out_fast`. -/
theorem provider_bound_to_subjects_witness :
    (providers (Start (observerOf (some testConfig)
      (OutboundManager.handlerSelector selectFast) sampleStore)).calls).map
        (fun selector => selector ()) = [Except.ok ["out_fast"]] ∧
    ∃ selector : Unit → Except String (List String),
      (Start (observerOf (some testConfig)
        (OutboundManager.handlerSelector selectFast) sampleStore)).calls
        = [Call.StartScheduler selector, Call.goBackground] ∧
      providers (Start (observerOf (some testConfig)
        (OutboundManager.handlerSelector selectFast) sampleStore)).calls = [selector] ∧
      (∀ Select : List String → List String,
        (observerOf (some testConfig)
          (OutboundManager.handlerSelector selectFast) sampleStore).ohm
          = OutboundManager.handlerSelector Select →
        selector () = Except.ok (Select testConfig.SubjectSelector)) ∧
      ((∃ msg : String, selector () = Except.error msg) ↔
        (observerOf (some testConfig)
          (OutboundManager.handlerSelector selectFast) sampleStore).ohm
          = OutboundManager.plain) ∧
      ((observerOf (some testConfig)
          (OutboundManager.handlerSelector selectFast) sampleStore).ohm
          = OutboundManager.plain →
        selector () = Except.error "outbound.Manager is not a HandlerSelector") :=
  ⟨rfl,
   provider_bound_to_subjects (observerOf (some testConfig)
      (OutboundManager.handlerSelector selectFast) sampleStore) testConfig rfl (by decide)⟩

/-! ## Snapshot queries and the order of enumeration -/

/-- In the embedding the two sorts and the first search collapse: the locals of
`logVisualStatus` are those of the single-sort procedure. -/
theorem visualStatus_eq_sortOnceThenSearch (l : List OutboundStatus) :
    visualStatus l = sortOnceThenSearch l := by
  simp only [visualStatus, sortOnceThenSearch, sortSlice_sortSlice, List.singleton_append]

/-- Two enumerations of one store with pairwise distinct keys are sorted to the same
list. -/
theorem sortSlice_createResult_perm {R : Type} (getStatistics : R → HealthPingStats)
    (hp hp' : HealthPing R) (hperm : hp.Results.Perm hp'.Results)
    (hn : (hp.Results.map Prod.fst).Nodup) :
    sortSlice (createResult getStatistics hp) = sortSlice (createResult getStatistics hp') := by
  have hn' : ((createResult getStatistics hp').map OutboundStatus.OutboundTag).Nodup := by
    rw [createResult_tags]
    exact (hperm.map Prod.fst).nodup_iff.mp hn
  have hp1 : (createResult getStatistics hp).Perm (createResult getStatistics hp') := by
    unfold createResult
    exact hperm.map _
  exact sortSlice_unique hn' ((sortSlice_perm _).trans hp1) (sortSlice_sorted _)

/-- C15.  For every store state `GetObservation` returns, with no error, the
`ObservationResult` whose Status list is the `createResult` snapshot of the store; the
result is the same for any two observers whose stores hold the same results, whatever
their settings (cadence) are, and the body of the reporting loop prints the view of
this same snapshot, at whatever step it runs. -/
theorem observation_is_snapshot {R : Type} (getStatistics : R → HealthPingStats)
    (hp : HealthPing R) :
    GetObservation getStatistics hp =
      Except.ok { Status := createResult getStatistics hp } ∧
    (∀ hp' : HealthPing R, hp'.Results = hp.Results →
      GetObservation getStatistics hp' = GetObservation getStatistics hp) ∧
    (∀ o o' : Observer R, o.hp.Results = hp.Results → o'.hp.Results = hp.Results →
      GetObservation getStatistics o.hp = GetObservation getStatistics o'.hp) ∧
    (∀ tick : Tick R, tick.o.hp = hp →
      ∃ result : ObservationResult,
        GetObservation getStatistics hp = Except.ok result ∧
        (backgroundStep getStatistics tick LoopState.body).2 =
          [(visualStatus result.Status).printed]) := by
  have hres : ∀ a b : HealthPing R, a.Results = b.Results →
      GetObservation getStatistics a = GetObservation getStatistics b := by
    intro a b h
    simp only [GetObservation, createResult, h]
  refine ⟨rfl, fun hp' h => hres hp' hp h, ?_, ?_⟩
  · intro o o' h h'
    exact hres _ _ (h.trans h'.symm)
  · intro tick h
    refine ⟨{ Status := createResult getStatistics hp }, rfl, ?_⟩
    simp only [backgroundStep, logVisualStatus, h]

/-- C15, witness: the snapshot of the sample store, read with the test settings and
with the zero-interval settings. -/
theorem observation_is_snapshot_witness :
    GetObservation id sampleStore =
      Except.ok { Status := createResult id sampleStore } ∧
    GetObservation id { Settings := zeroIntervalSettings, Results := sampleStore.Results } =
      GetObservation id sampleStore :=
  ⟨(observation_is_snapshot id sampleStore).1,
   (observation_is_snapshot id sampleStore).2.1
     { Settings := zeroIntervalSettings, Results := sampleStore.Results } rfl⟩

/-- C16.  For two orders in which `createResult` may enumerate one store whose tags are
pairwise distinct, `logVisualStatus` ends with the same locals: the same sorted list,
the same best position and hence the same best entry, the same rows, and it prints the
same. -/
theorem status_view_order_independent {R : Type} (getStatistics : R → HealthPingStats)
    (hp hp' : HealthPing R) (hperm : hp.Results.Perm hp'.Results)
    (hn : (hp.Results.map Prod.fst).Nodup) :
    visualStatus (createResult getStatistics hp) =
      visualStatus (createResult getStatistics hp') ∧
    (visualStatus (createResult getStatistics hp)).rows =
      (visualStatus (createResult getStatistics hp')).rows ∧
    (visualStatus (createResult getStatistics hp)).bestIdx =
      (visualStatus (createResult getStatistics hp')).bestIdx ∧
    (∀ k : Nat,
      (visualStatus (createResult getStatistics hp)).statusList[k]? =
        (visualStatus (createResult getStatistics hp')).statusList[k]?) ∧
    logVisualStatus getStatistics hp = logVisualStatus getStatistics hp' := by
  have h : visualStatus (createResult getStatistics hp) =
      visualStatus (createResult getStatistics hp') := by
    rw [visualStatus_eq_sortOnceThenSearch, visualStatus_eq_sortOnceThenSearch]
    simp only [sortOnceThenSearch,
      sortSlice_createResult_perm getStatistics hp hp' hperm hn]
  refine ⟨h, by rw [h], by rw [h], fun k => by rw [h], ?_⟩
  unfold logVisualStatus
  rw [h]

/-- C16, witness: the store with the candidates C, B, A enumerated in this order and in
the order A, C, B. -/
theorem status_view_order_independent_witness :
    logVisualStatus id (storeOf [("C", deadStats), ("B", aliveStats 5), ("A", aliveStats 50)]) =
      logVisualStatus id
        (storeOf [("A", aliveStats 50), ("C", deadStats), ("B", aliveStats 5)]) ∧
    logVisualStatus id (storeOf [("C", deadStats), ("B", aliveStats 5), ("A", aliveStats 50)]) =
      some [titleRow,
        Row.candidate Style.rowStyle "  " "A" "50 ms",
        Row.candidate Style.selectedStyle "✅" "B" "5 ms",
        Row.candidate Style.deadStyle "💀" "C" "DEAD"] :=
  ⟨(status_view_order_independent id
      (storeOf [("C", deadStats), ("B", aliveStats 5), ("A", aliveStats 50)])
      (storeOf [("A", aliveStats 50), ("C", deadStats), ("B", aliveStats 5)])
      (by decide) (by decide)).2.2.2.2,
   by decide⟩

/-! ## The sentinel -/

/-- A row of the view that is marked selected is the row of an alive entry standing at
the best position of the sorted list. -/
theorem selected_row_origin (l : List OutboundStatus) (i : Nat) (row : Row)
    (hi : (visualStatus l).rows[i]? = some row) (hs : row.style = Style.selectedStyle) :
    ∃ (k : Nat) (s : OutboundStatus), i = k + 1 ∧
      (visualStatus l).statusList[k]? = some s ∧ s.Alive = true ∧
      (k : Int) = (visualStatus l).bestIdx := by
  cases i with
  | zero =>
    rw [visualStatus_rows, List.getElem?_cons_zero] at hi
    cases hi
    exact absurd hs (by decide)
  | succ k =>
    rw [visualStatus_row] at hi
    cases hst : (visualStatus l).statusList[k]? with
    | none => rw [hst] at hi; cases hi
    | some s =>
      rw [hst, Option.map_some'] at hi
      cases hi
      have h := (renderRow_classes (visualStatus l).bestIdx k s).2.2.2.2.1.mp hs
      exact ⟨k, s, rfl, hst, h.1, h.2⟩

/-- C19.  `logVisualStatus` selects a best position, and marks a row as selected, if
and only if some alive entry of the snapshot has a Delay strictly below 99,999,999; the
row of an alive entry whose Delay is 99,999,999 or more is never marked selected; and
when every alive entry has such a Delay (in particular when no entry is alive) the
search ends with `bestIdx = -1` and no row is marked selected. -/
theorem selected_iff_below_sentinel (statusList : List OutboundStatus) :
    ((∃ k : Nat, (visualStatus statusList).bestIdx = (k : Int)) ↔
      ∃ s ∈ statusList, s.Alive = true ∧ s.Delay < 99999999) ∧
    ((∃ (i : Nat) (row : Row), (visualStatus statusList).rows[i]? = some row ∧
        row.style = Style.selectedStyle) ↔
      ∃ s ∈ statusList, s.Alive = true ∧ s.Delay < 99999999) ∧
    (∀ (i : Nat) (status : OutboundStatus) (row : Row),
      (visualStatus statusList).statusList[i]? = some status →
      (visualStatus statusList).rows[i + 1]? = some row →
      status.Alive = true → 99999999 ≤ status.Delay →
      row.style ≠ Style.selectedStyle) ∧
    ((∀ s ∈ statusList, s.Alive = true → 99999999 ≤ s.Delay) →
      (visualStatus statusList).bestIdx = -1 ∧
      ∀ row ∈ (visualStatus statusList).rows, row.style ≠ Style.selectedStyle) := by
  have hbest : (∃ k : Nat, (visualStatus statusList).bestIdx = (k : Int)) ↔
      ∃ s ∈ statusList, s.Alive = true ∧ s.Delay < 99999999 := by
    constructor
    · rintro ⟨k, hk⟩
      rcases visualStatus_spec statusList with ⟨hneg, _⟩ | ⟨_, s, _, _, hmem, ha, hlt, _, _⟩
      · rw [hneg] at hk
        omega
      · exact ⟨s, hmem, ha, hlt⟩
    · rintro ⟨s, hmem, ha, hlt⟩
      rcases visualStatus_spec statusList with ⟨_, hall⟩ | ⟨k, _, _, hb, _, _, _, _, _⟩
      · exact absurd (hall s hmem ha) (not_le.mpr hlt)
      · exact ⟨k, hb⟩
  have hrow : (∃ (i : Nat) (row : Row), (visualStatus statusList).rows[i]? = some row ∧
        row.style = Style.selectedStyle) ↔
      ∃ s ∈ statusList, s.Alive = true ∧ s.Delay < 99999999 := by
    constructor
    · rintro ⟨i, row, hi, hs⟩
      obtain ⟨k, _, _, _, _, hk⟩ := selected_row_origin statusList i row hi hs
      exact hbest.mp ⟨k, hk.symm⟩
    · rintro ⟨s₀, hmem₀, ha₀, hlt₀⟩
      rcases visualStatus_spec statusList with ⟨_, hall⟩ | ⟨k, s, hk, hb, _, ha, _, _, _⟩
      · exact absurd (hall s₀ hmem₀ ha₀) (not_le.mpr hlt₀)
      · refine ⟨k + 1, renderRow (visualStatus statusList).bestIdx k s, ?_, ?_⟩
        · rw [visualStatus_row, hk, Option.map_some']
        · rw [renderRow_selected _ _ _ ha hb.symm]
          rfl
  refine ⟨hbest, hrow, ?_, ?_⟩
  · intro i status row hi hr ha hge hs
    obtain ⟨k, s, hik, hk, _, hkb⟩ := selected_row_origin statusList (i + 1) row hr hs
    have hki : k = i := by omega
    subst hki
    rw [hi] at hk
    cases hk
    rcases visualStatus_spec statusList with ⟨hneg, _⟩ | ⟨k', s', hk', hb', _, _, hlt', _, _⟩
    · rw [hneg] at hkb
      omega
    · have hkk : k' = k := by
        rw [hb'] at hkb
        exact_mod_cast hkb.symm
      subst hkk
      rw [hi] at hk'
      cases hk'
      exact absurd hge (not_le.mpr hlt')
  · intro hall
    constructor
    · rcases visualStatus_spec statusList with ⟨hneg, _⟩ | ⟨_, s, _, _, hmem, ha, hlt, _, _⟩
      · exact hneg
      · exact absurd (hall s hmem ha) (not_le.mpr hlt)
    · intro row hrowmem hs
      obtain ⟨i, hi⟩ := List.mem_iff_getElem?.mp hrowmem
      obtain ⟨s, hmem, ha, hlt⟩ := hrow.mp ⟨i, row, hi, hs⟩
      exact absurd (hall s hmem ha) (not_le.mpr hlt)

/-- C19, witness: in the snapshot of `[A alive 99999999, B dead]` every alive entry is
at the sentinel, the search ends with `bestIdx = -1`, and no row is selected; the
printed rows show A as a neutral row. -/
theorem selected_iff_below_sentinel_witness :
    ((visualStatus (createResult id
        (storeOf [("A", aliveStats 99999999), ("B", deadStats)]))).bestIdx = -1 ∧
      ∀ row ∈ (visualStatus (createResult id
        (storeOf [("A", aliveStats 99999999), ("B", deadStats)]))).rows,
        row.style ≠ Style.selectedStyle) ∧
    logVisualStatus id (storeOf [("A", aliveStats 99999999), ("B", deadStats)]) =
      some [titleRow,
        Row.candidate Style.rowStyle "  " "A" "99999999 ms",
        Row.candidate Style.deadStyle "💀" "B" "DEAD"] :=
  ⟨(selected_iff_below_sentinel (createResult id
      (storeOf [("A", aliveStats 99999999), ("B", deadStats)]))).2.2.2 (by decide),
   by decide⟩

/-! ## The simpler procedure -/

/-- C20.  On a snapshot with pairwise distinct tags `logVisualStatus` is the simpler
procedure "sort by tag once, then search for the best": it ends with the same sorted
list, best position, rows and printed box, so the first search over the unsorted list
and the first of the two sorts have no effect.  The reason holds for every sorting
procedure that returns a tag-ordered permutation of its input: applied to its own
output it changes nothing, and its output is the one of `sortSlice`. -/
theorem double_sort_refines_single_sort (statusList : List OutboundStatus)
    (hn : (statusList.map OutboundStatus.OutboundTag).Nodup) :
    visualStatus statusList = sortOnceThenSearch statusList ∧
    (visualStatus statusList).rows = (sortOnceThenSearch statusList).rows ∧
    (visualStatus statusList).bestIdx = (sortOnceThenSearch statusList).bestIdx ∧
    (visualStatus statusList).printed = (sortOnceThenSearch statusList).printed ∧
    (visualStatus statusList).bestIdx = (findBest (sortSlice statusList)).1 ∧
    sortSlice (sortSlice statusList) = sortSlice statusList ∧
    ∀ sort : List OutboundStatus → List OutboundStatus,
      (∀ l, (sort l).Perm l) → (∀ l, (sort l).Pairwise notAfter) →
      sort statusList = sortSlice statusList ∧
      sort (sort statusList) = sort statusList := by
  have h := visualStatus_eq_sortOnceThenSearch statusList
  refine ⟨h, by rw [h], by rw [h], by rw [h], visualStatus_bestIdx statusList,
    sortSlice_sortSlice statusList, ?_⟩
  intro sort hperm hsorted
  have h1 : sort statusList = sortSlice statusList :=
    sortSlice_unique hn (hperm statusList) (hsorted statusList)
  refine ⟨h1, ?_⟩
  have h2 : sort (sort statusList) = sortSlice statusList :=
    sortSlice_unique hn ((hperm _).trans (hperm statusList)) (hsorted _)
  rw [h2, h1]

/-- C20, witness: the snapshot of the sample store, whose tags C, B, A are distinct. -/
theorem double_sort_refines_single_sort_witness :
    visualStatus (createResult id sampleStore) =
      sortOnceThenSearch (createResult id sampleStore) ∧
    (sortOnceThenSearch (createResult id sampleStore)).printed =
      some [titleRow,
        Row.candidate Style.rowStyle "  " "A" "50 ms",
        Row.candidate Style.selectedStyle "✅" "B" "5 ms",
        Row.candidate Style.deadStyle "💀" "C" "DEAD"] :=
  ⟨(double_sort_refines_single_sort (createResult id sampleStore) (by decide)).1,
   by decide⟩

/-! ## The reporting loop after `Close` -/

theorem background_nil {R : Type} (getStatistics : R → HealthPingStats) (s : LoopState) :
    background getStatistics s ([] : List (Tick R)) = (s, []) := rfl

theorem background_cons {R : Type} (getStatistics : R → HealthPingStats) (s : LoopState)
    (tick : Tick R) (rest : List (Tick R)) :
    background getStatistics s (tick :: rest) =
      ((background getStatistics (backgroundStep getStatistics tick s).1 rest).1,
        (backgroundStep getStatistics tick s).2 ++
          (background getStatistics (backgroundStep getStatistics tick s).1 rest).2) := rfl

/-- At the guard a closed signal ends the loop. -/
theorem step_guard_closed {R : Type} (getStatistics : R → HealthPingStats) (tick : Tick R)
    (h : tick.o.finished = some { closed := true }) :
    backgroundStep getStatistics tick LoopState.guard = (LoopState.exited, []) := by
  simp [backgroundStep, h, done.Instance.Done]

/-- In the `select` a closed signal never lets the loop wait: it returns, or, when the
timer has fired as well and its case is taken, it goes to the guard. -/
theorem step_sleeping_closed {R : Type} (getStatistics : R → HealthPingStats)
    (tick : Tick R) (x : Int) (h : tick.o.finished = some { closed := true }) :
    backgroundStep getStatistics tick (LoopState.sleeping x) =
      (if tick.timerFired = true ∧ tick.timerChosen = true then LoopState.guard
        else LoopState.exited, []) := by
  cases hf : tick.timerFired <;> cases hc : tick.timerChosen <;>
    simp [backgroundStep, h, done.Instance.Done, hf, hc]

/-- With the signal closed, a step taken outside the body prints nothing and does not
enter the body. -/
theorem step_closed_quiet {R : Type} (getStatistics : R → HealthPingStats) (tick : Tick R)
    (h : tick.o.finished = some { closed := true }) (s : LoopState)
    (hs : s ≠ LoopState.body) :
    (backgroundStep getStatistics tick s).2 = [] ∧
    (backgroundStep getStatistics tick s).1 ≠ LoopState.body := by
  cases s with
  | guard => rw [step_guard_closed getStatistics tick h]; exact ⟨rfl, by decide⟩
  | body => exact absurd rfl hs
  | sleeping x =>
    rw [step_sleeping_closed getStatistics tick x h]
    refine ⟨rfl, ?_⟩
    by_cases hc : tick.timerFired = true ∧ tick.timerChosen = true
    · rw [if_pos hc]; decide
    · rw [if_neg hc]; decide
  | exited => exact ⟨rfl, by simp [backgroundStep]⟩
  | panicked => exact ⟨rfl, by simp [backgroundStep]⟩

theorem background_closed_quiet {R : Type} (getStatistics : R → HealthPingStats) :
    ∀ (ticks : List (Tick R)) (s : LoopState),
      (∀ t ∈ ticks, t.o.finished = some { closed := true }) → s ≠ LoopState.body →
      (background getStatistics s ticks).2 = [] ∧
      LoopState.body ∉ backgroundStates getStatistics s ticks
  | [], s, _, hs => ⟨rfl, by simpa [backgroundStates] using hs.symm⟩
  | tick :: rest, s, hclosed, hs => by
    have hq := step_closed_quiet getStatistics tick
      (hclosed tick (List.mem_cons_self _ _)) s hs
    have ih := background_closed_quiet getStatistics rest
      (backgroundStep getStatistics tick s).1
      (fun t ht => hclosed t (List.mem_cons_of_mem _ ht)) hq.2
    rw [background_cons]
    refine ⟨by simp only [hq.1, ih.1, List.append_nil], ?_⟩
    simp only [backgroundStates, List.mem_cons, not_or]
    exact ⟨hs.symm, ih.2⟩

theorem background_exited {R : Type} (getStatistics : R → HealthPingStats) :
    ∀ ticks : List (Tick R),
      (background getStatistics LoopState.exited ticks).1 = LoopState.exited
  | [] => rfl
  | tick :: rest => by
    rw [background_cons]
    exact background_exited getStatistics rest

theorem background_guard_closed {R : Type} (getStatistics : R → HealthPingStats)
    (tick : Tick R) (rest : List (Tick R))
    (h : tick.o.finished = some { closed := true }) :
    (background getStatistics LoopState.guard (tick :: rest)).1 = LoopState.exited := by
  rw [background_cons, step_guard_closed getStatistics tick h]
  exact background_exited getStatistics rest

theorem background_sleeping_closed {R : Type} (getStatistics : R → HealthPingStats)
    (x : Int) (t₁ t₂ : Tick R) (rest : List (Tick R))
    (h₁ : t₁.o.finished = some { closed := true })
    (h₂ : t₂.o.finished = some { closed := true }) :
    (background getStatistics (LoopState.sleeping x) (t₁ :: t₂ :: rest)).1 =
      LoopState.exited := by
  rw [background_cons, step_sleeping_closed getStatistics t₁ x h₁]
  by_cases hc : t₁.timerFired = true ∧ t₁.timerChosen = true
  · simp only [if_pos hc]
    exact background_guard_closed getStatistics t₂ rest h₂
  · simp only [if_neg hc]
    exact background_exited getStatistics _

/-- C18.  While the lifecycle signal read by the loop is closed, as `Close` leaves it,
`Observer.background` never begins another iteration: at the guard it returns, in the
`select` it returns through the cancellation case whenever the sleep is still pending
(and otherwise returns or goes to the guard, which then fails), so from any point
outside the body no status view is printed and the body is never entered again; from
inside the body only the view of the iteration in progress is printed; and the loop
has returned after at most three steps. -/
theorem no_iteration_after_close {R : Type} (getStatistics : R → HealthPingStats)
    (ticks : List (Tick R))
    (hclosed : ∀ t ∈ ticks, t.o.finished = some { closed := true }) :
    (∀ s : LoopState, s ≠ LoopState.body →
      (background getStatistics s ticks).2 = [] ∧
      LoopState.body ∉ backgroundStates getStatistics s ticks) ∧
    (background getStatistics LoopState.body ticks).2.length ≤ 1 ∧
    (∀ tick ∈ ticks,
      backgroundStep getStatistics tick LoopState.guard = (LoopState.exited, [])) ∧
    (∀ tick ∈ ticks, ∀ x : Int, tick.timerFired = false →
      backgroundStep getStatistics tick (LoopState.sleeping x) = (LoopState.exited, [])) ∧
    (∀ tick ∈ ticks, ∀ x : Int,
      backgroundStep getStatistics tick (LoopState.sleeping x) = (LoopState.exited, []) ∨
      backgroundStep getStatistics tick (LoopState.sleeping x) = (LoopState.guard, [])) ∧
    (∀ s : LoopState, s ≠ LoopState.panicked → 3 ≤ ticks.length →
      (background getStatistics s ticks).1 = LoopState.exited) := by
  refine ⟨fun s hs => background_closed_quiet getStatistics ticks s hclosed hs,
    ?_, ?_, ?_, ?_, ?_⟩
  · cases ticks with
    | nil => simp [background]
    | cons tick rest =>
      have ih := background_closed_quiet getStatistics rest
        (LoopState.sleeping (sleepTime tick.o.hp.Settings))
        (fun t ht => hclosed t (List.mem_cons_of_mem _ ht)) (by simp)
      rw [background_cons]
      simp only [backgroundStep, ih.1, List.append_nil, List.length_singleton, le_refl]
  · intro tick ht
    exact step_guard_closed getStatistics tick (hclosed tick ht)
  · intro tick ht x hf
    rw [step_sleeping_closed getStatistics tick x (hclosed tick ht)]
    simp [hf]
  · intro tick ht x
    rw [step_sleeping_closed getStatistics tick x (hclosed tick ht)]
    by_cases hc : tick.timerFired = true ∧ tick.timerChosen = true
    · rw [if_pos hc]; exact Or.inr rfl
    · rw [if_neg hc]; exact Or.inl rfl
  · intro s hs hlen
    match ticks, hclosed, hlen with
    | t₁ :: t₂ :: t₃ :: rest, hclosed, _ =>
      have h₁ := hclosed t₁ (by simp)
      have h₂ := hclosed t₂ (by simp)
      have h₃ := hclosed t₃ (by simp)
      cases s with
      | guard => exact background_guard_closed getStatistics t₁ _ h₁
      | body =>
        rw [background_cons]
        exact background_sleeping_closed getStatistics _ t₂ t₃ rest h₂ h₃
      | sleeping x => exact background_sleeping_closed getStatistics x t₁ t₂ _ h₁ h₂
      | exited => exact background_exited getStatistics _
      | panicked => exact absurd rfl hs

/-- C18, witness: the observer of the integration test after `Start` and `Close`, seen
by the loop for three steps.  From the `select` the loop returns without printing; from
the body it prints the one view in progress and then returns. -/
theorem no_iteration_after_close_witness :
    background id (LoopState.sleeping (2 * Second)) closedTicks = (LoopState.exited, []) ∧
    background id LoopState.body closedTicks =
      (LoopState.exited, [logVisualStatus id sampleStore]) ∧
    (background id LoopState.body closedTicks).2.length ≤ 1 :=
  ⟨by decide, by decide, (no_iteration_after_close id closedTicks (by decide)).2.1⟩

end Burst

namespace Log

/-! ## The level label -/

theorem Level.String_unknown (level : Nat) (h : 6 < level) :
    Level.String level = "unknown" := by
  unfold Level.String TraceLevel DebugLevel InfoLevel WarnLevel ErrorLevel FatalLevel
    PanicLevel
  rw [if_neg (by omega), if_neg (by omega), if_neg (by omega), if_neg (by omega),
    if_neg (by omega), if_neg (by omega), if_neg (by omega)]

theorem levelStyle_unknown (level : Nat) (h : 6 < level) :
    levelStyle level = some (none, "UNKN") := by
  unfold levelStyle
  rw [Level.String_unknown level h]
  unfold DebugLevel InfoLevel WarnLevel ErrorLevel FatalLevel PanicLevel
  rw [if_neg (by omega), if_neg (by omega), if_neg (by omega), if_neg (by omega)]
  decide

/-- The outcome of the `switch` for every level value. -/
theorem levelStyle_spec (level : Nat) :
    ∃ (foreground : Option String) (label : String),
      levelStyle level = some (foreground, label) ∧
      label.length = 4 ∧
      (level = DebugLevel → label = "DEBG") ∧
      (level = InfoLevel → label = "INFO") ∧
      (level = WarnLevel → label = "WARN") ∧
      (level = ErrorLevel ∨ level = FatalLevel ∨ level = PanicLevel → label = "ERRO") ∧
      (level = TraceLevel → label = "TRAC") ∧
      (TraceLevel < level → label = "UNKN") ∧
      (level ≠ DebugLevel → level ≠ InfoLevel → level ≠ WarnLevel → level ≠ ErrorLevel →
        level ≠ FatalLevel → level ≠ PanicLevel →
        sliceTo (strings.ToUpper (Level.String level)) 4 = some label ∧
        label.data = (strings.ToUpper (Level.String level)).data.take 4) := by
  rcases Nat.lt_or_ge level 7 with hlt | hge
  · interval_cases level
    · exact ⟨some "204", "ERRO", by decide, by decide, by decide, by decide, by decide,
        by decide, by decide, by decide, fun _ _ _ _ _ h => absurd rfl h⟩
    · exact ⟨some "204", "ERRO", by decide, by decide, by decide, by decide, by decide,
        by decide, by decide, by decide, fun _ _ _ _ h _ => absurd rfl h⟩
    · exact ⟨some "204", "ERRO", by decide, by decide, by decide, by decide, by decide,
        by decide, by decide, by decide, fun _ _ _ h _ _ => absurd rfl h⟩
    · exact ⟨some "192", "WARN", by decide, by decide, by decide, by decide, by decide,
        by decide, by decide, by decide, fun _ _ h _ _ _ => absurd rfl h⟩
    · exact ⟨some "86", "INFO", by decide, by decide, by decide, by decide, by decide,
        by decide, by decide, by decide, fun _ h _ _ _ _ => absurd rfl h⟩
    · exact ⟨some "63", "DEBG", by decide, by decide, by decide, by decide, by decide,
        by decide, by decide, by decide, fun h _ _ _ _ _ => absurd rfl h⟩
    · exact ⟨none, "TRAC", by decide, by decide, by decide, by decide, by decide,
        by decide, by decide, by decide, fun _ _ _ _ _ _ => ⟨by decide, by decide⟩⟩
  · have h6 : 6 < level := hge
    refine ⟨none, "UNKN", levelStyle_unknown level h6, by decide, ?_, ?_, ?_, ?_, ?_,
      fun _ => rfl, ?_⟩
    · intro h; unfold DebugLevel at h; omega
    · intro h; unfold InfoLevel at h; omega
    · intro h; unfold WarnLevel at h; omega
    · intro h; unfold ErrorLevel FatalLevel PanicLevel at h; omega
    · intro h; unfold TraceLevel at h; omega
    · intro _ _ _ _ _ _
      rw [Level.String_unknown level h6]
      exact ⟨by decide, by decide⟩

/-- What `Format` returns once the outcome of the `switch` is known. -/
theorem Format_of_levelStyle (f : ModernFormatter) (entry : Entry)
    (foreground : Option String) (label : String)
    (h : levelStyle entry.Level = some (foreground, label)) :
    Format f entry =
      some (entry.Buffer.getD [] ++
        [{ timeStr :=
             { style := TextStyle.timestampStyle
               text := entry.Time
                 (if f.TimestampFormat = "" then StampMilli else f.TimestampFormat) }
           levelStr := { style := TextStyle.levelStyle foreground, text := label }
           msg := { style := TextStyle.msgStyle, text := entry.Message }
           callerStr := callerStr entry.Caller }], none) := by
  unfold Format
  rw [h]
  cases entry.Buffer <;> rfl

/-- C21.  For every level value `Format` returns without a panic and without an error,
having written one line whose level label has exactly four characters: DEBG for debug,
INFO for info, WARN for warn, ERRO for error, fatal and panic, and in the default case
the first four characters of the upper-cased level name, a slice that is within range:
TRAC for trace and UNKN for every value above the defined levels. -/
theorem level_label_four_chars (f : ModernFormatter) (entry : Entry) :
    ∃ (foreground : Option String) (label : String) (line : Line),
      Format f entry = some (entry.Buffer.getD [] ++ [line], none) ∧
      line.levelStr = { style := TextStyle.levelStyle foreground, text := label } ∧
      label.length = 4 ∧
      (entry.Level = DebugLevel → label = "DEBG") ∧
      (entry.Level = InfoLevel → label = "INFO") ∧
      (entry.Level = WarnLevel → label = "WARN") ∧
      (entry.Level = ErrorLevel ∨ entry.Level = FatalLevel ∨ entry.Level = PanicLevel →
        label = "ERRO") ∧
      (entry.Level = TraceLevel → label = "TRAC") ∧
      (TraceLevel < entry.Level → label = "UNKN") ∧
      (entry.Level ≠ DebugLevel → entry.Level ≠ InfoLevel → entry.Level ≠ WarnLevel →
        entry.Level ≠ ErrorLevel → entry.Level ≠ FatalLevel → entry.Level ≠ PanicLevel →
        sliceTo (strings.ToUpper (Level.String entry.Level)) 4 = some label ∧
        label.data = (strings.ToUpper (Level.String entry.Level)).data.take 4) := by
  obtain ⟨foreground, label, hstyle, hrest⟩ := levelStyle_spec entry.Level
  exact ⟨foreground, label, _, Format_of_levelStyle f entry foreground label hstyle, rfl,
    hrest⟩

/-- C21, witness: a trace entry and an entry of the undefined level 99 are written with
the labels TRAC and UNKN, and a fatal entry with ERRO, each with a nil error. -/
theorem level_label_four_chars_witness :
    ((Format { TimestampFormat := "" } (entryOf TraceLevel "m" none)).map
      fun r => (r.1.map fun line => line.levelStr.text, r.2)) = some (["TRAC"], none) ∧
    ((Format { TimestampFormat := "" } (entryOf 99 "m" none)).map
      fun r => (r.1.map fun line => line.levelStr.text, r.2)) = some (["UNKN"], none) ∧
    ((Format { TimestampFormat := "" } (entryOf FatalLevel "m" none)).map
      fun r => (r.1.map fun line => line.levelStr.text, r.2)) = some (["ERRO"], none) ∧
    ∃ (foreground : Option String) (label : String) (line : Line),
      Format { TimestampFormat := "" } (entryOf 99 "m" none) =
        some ((entryOf 99 "m" none).Buffer.getD [] ++ [line], none) ∧
      line.levelStr = { style := TextStyle.levelStyle foreground, text := label } ∧
      label.length = 4 :=
  ⟨by decide, by decide, by decide,
   (level_label_four_chars { TimestampFormat := "" } (entryOf 99 "m" none)).imp
     fun _ h => h.imp fun _ h => h.imp fun _ h => ⟨h.1, h.2.1, h.2.2.1⟩⟩

/-! ## Splitting and joining -/

theorem splitChars_ne_nil (sep : Char) : ∀ s : List Char, splitChars sep s ≠ []
  | [] => by simp [splitChars]
  | c :: cs => by
    unfold splitChars
    split
    · simp
    · split <;> simp

theorem joinChars_cons_cons (sep c : Char) (p : List Char) (ps : List (List Char)) :
    joinChars sep ((c :: p) :: ps) = c :: joinChars sep (p :: ps) := by
  cases ps <;> simp [joinChars]

theorem joinChars_nil_cons (sep : Char) (ps : List (List Char)) (h : ps ≠ []) :
    joinChars sep ([] :: ps) = sep :: joinChars sep ps := by
  cases ps with
  | nil => exact absurd rfl h
  | cons q qs => simp [joinChars]

/-- Joining the parts of a split gives the text back. -/
theorem joinChars_splitChars (sep : Char) :
    ∀ s : List Char, joinChars sep (splitChars sep s) = s
  | [] => by simp [splitChars, joinChars]
  | c :: cs => by
    have ih := joinChars_splitChars sep cs
    have hne := splitChars_ne_nil sep cs
    unfold splitChars
    split
    · next h =>
      rw [joinChars_nil_cons sep _ hne, ih, h]
    · cases hs : splitChars sep cs with
      | nil => exact absurd hs hne
      | cons p ps =>
        rw [hs] at ih
        simp only [joinChars_cons_cons, ih]

/-- No part of a split holds the separator. -/
theorem not_mem_of_mem_splitChars (sep : Char) :
    ∀ (s : List Char) (p : List Char), p ∈ splitChars sep s → sep ∉ p
  | [], p, hp => by
    simp only [splitChars, List.mem_singleton] at hp
    rw [hp]
    simp
  | c :: cs, p, hp => by
    have ih := not_mem_of_mem_splitChars sep cs
    unfold splitChars at hp
    split at hp
    · rcases List.mem_cons.mp hp with h | h
      · rw [h]; simp
      · exact ih p h
    · next hc =>
      cases hs : splitChars sep cs with
      | nil => exact absurd hs (splitChars_ne_nil sep cs)
      | cons q qs =>
        rw [hs] at hp ih
        simp only [List.mem_cons] at hp
        rcases hp with h | h
        · rw [h]
          intro hmem
          rcases List.mem_cons.mp hmem with h' | h'
          · exact hc h'.symm
          · exact ih q (List.mem_cons_self _ _) h'
        · exact ih p (List.mem_cons_of_mem _ h)

theorem splitChars_of_not_mem (sep : Char) :
    ∀ p : List Char, sep ∉ p → splitChars sep p = [p]
  | [], _ => rfl
  | c :: cs, h => by
    have hc : ¬ c = sep := fun e => h (e ▸ List.mem_cons_self _ _)
    have ih := splitChars_of_not_mem sep cs (fun hm => h (List.mem_cons_of_mem _ hm))
    unfold splitChars
    rw [if_neg hc, ih]

theorem splitChars_append_sep (sep : Char) (rest : List Char) :
    ∀ p : List Char, sep ∉ p →
      splitChars sep (p ++ sep :: rest) = p :: splitChars sep rest
  | [], _ => by
    show splitChars sep (sep :: rest) = [] :: splitChars sep rest
    rw [splitChars, if_pos rfl]
  | c :: cs, h => by
    have hc : ¬ c = sep := fun e => h (e ▸ List.mem_cons_self _ _)
    have ih := splitChars_append_sep sep rest cs
      (fun hm => h (List.mem_cons_of_mem _ hm))
    show splitChars sep (c :: (cs ++ sep :: rest)) = (c :: cs) :: splitChars sep rest
    rw [splitChars, if_neg hc, ih]

/-- Splitting a join of parts that hold no separator gives the parts back. -/
theorem splitChars_joinChars (sep : Char) :
    ∀ parts : List (List Char), parts ≠ [] → (∀ p ∈ parts, sep ∉ p) →
      splitChars sep (joinChars sep parts) = parts
  | [], h, _ => absurd rfl h
  | [p], _, hp => by
    simp only [joinChars]
    exact splitChars_of_not_mem sep p (hp p (List.mem_singleton_self p))
  | p :: q :: ps, _, hp => by
    have ih := splitChars_joinChars sep (q :: ps) (by simp)
      (fun x hx => hp x (List.mem_cons_of_mem _ hx))
    simp only [joinChars]
    rw [splitChars_append_sep sep _ p (hp p (List.mem_cons_self _ _)), ih]

/-- A join of two non-empty lists of parts is the two joins with a separator between. -/
theorem joinChars_append (sep : Char) :
    ∀ (xs ys : List (List Char)), xs ≠ [] → ys ≠ [] →
      joinChars sep (xs ++ ys) = joinChars sep xs ++ sep :: joinChars sep ys
  | [], _, h, _ => absurd rfl h
  | [p], ys, _, hy => by
    cases ys with
    | nil => exact absurd rfl hy
    | cons q qs => simp [joinChars]
  | p :: q :: ps, ys, _, hy => by
    have ih : joinChars sep (q :: (ps ++ ys)) =
        joinChars sep (q :: ps) ++ sep :: joinChars sep ys :=
      joinChars_append sep (q :: ps) ys (by simp) hy
    show joinChars sep (p :: q :: (ps ++ ys)) =
      joinChars sep (p :: q :: ps) ++ sep :: joinChars sep ys
    have e₁ : joinChars sep (p :: q :: (ps ++ ys)) =
        p ++ sep :: joinChars sep (q :: (ps ++ ys)) := by rw [joinChars]
    have e₂ : joinChars sep (p :: q :: ps) = p ++ sep :: joinChars sep (q :: ps) := by
      rw [joinChars]
    rw [e₁, e₂, ih, List.append_assoc, List.cons_append]

/-! ## The caller's file path -/

theorem length_Split (file : String) :
    (strings.Split file '/').length = (splitChars '/' file.data).length := by
  simp only [strings.Split, List.length_map]

/-- The characters of the shortened path. -/
theorem shortenFile_data (file : String) :
    (shortenFile file).data =
      if (splitChars '/' file.data).length > 2 then
        joinChars '/'
          ((splitChars '/' file.data).drop ((splitChars '/' file.data).length - 2))
      else file.data := by
  unfold shortenFile
  simp only [length_Split]
  by_cases h : (splitChars '/' file.data).length > 2
  · rw [if_pos h, if_pos h]
    have hid : (String.data ∘ String.mk) = id := funext fun _ => rfl
    simp only [strings.Join, strings.Split, ← List.map_drop, List.map_map, hid, List.map_id]
  · rw [if_neg h, if_neg h]

/-- The last two parts of a split into more than two parts, and the join they give. -/
theorem lastTwo (file : String) (h : (splitChars '/' file.data).length > 2) :
    ∃ a b : List Char,
      (splitChars '/' file.data).drop ((splitChars '/' file.data).length - 2) = [a, b] ∧
      '/' ∉ a ∧ '/' ∉ b ∧
      (shortenFile file).data = a ++ '/' :: b ∧
      ∃ front : List Char, file.data = front ++ '/' :: (a ++ '/' :: b) := by
  have hlen : ((splitChars '/' file.data).drop
      ((splitChars '/' file.data).length - 2)).length = 2 := by
    rw [List.length_drop]
    omega
  obtain ⟨a, b, hab⟩ := List.length_eq_two.mp hlen
  have hmem : ∀ p ∈ [a, b], p ∈ splitChars '/' file.data := by
    intro p hp
    rw [← hab] at hp
    exact List.mem_of_mem_drop hp
  have ha := not_mem_of_mem_splitChars '/' file.data a (hmem a (by simp))
  have hb := not_mem_of_mem_splitChars '/' file.data b (hmem b (by simp))
  have hdata : (shortenFile file).data = a ++ '/' :: b := by
    rw [shortenFile_data, if_pos h, hab]
    rfl
  refine ⟨a, b, hab, ha, hb, hdata, ?_⟩
  refine ⟨joinChars '/'
    ((splitChars '/' file.data).take ((splitChars '/' file.data).length - 2)), ?_⟩
  have hsplit := List.take_append_drop ((splitChars '/' file.data).length - 2)
    (splitChars '/' file.data)
  have htake : (splitChars '/' file.data).take
      ((splitChars '/' file.data).length - 2) ≠ [] := by
    intro hnil
    have := congrArg List.length hnil
    rw [List.length_take] at this
    simp only [List.length_nil] at this
    omega
  have hjoin := joinChars_append '/'
    ((splitChars '/' file.data).take ((splitChars '/' file.data).length - 2))
    ((splitChars '/' file.data).drop ((splitChars '/' file.data).length - 2))
    htake (by rw [hab]; simp)
  rw [hsplit, joinChars_splitChars, hab] at hjoin
  exact hjoin

/-- C22.  When caller information is present, `Format` writes, without panic or error,
a line whose caller text shows the shortened file path: the last two '/'-separated
components joined by '/' if the path has more than two components, and the path
unchanged otherwise.  The shown path is always a suffix of the original path, is never
longer than it, and shortening an already shortened path changes nothing. -/
theorem caller_file_shortened (f : ModernFormatter) (entry : Entry) (caller : Caller)
    (hc : entry.Caller = some caller) :
    (∃ line : Line, Format f entry = some (entry.Buffer.getD [] ++ [line], none) ∧
      line.callerStr =
        some { style := TextStyle.callerStyle
               text := " " ++ shortenFile caller.File ++ ":" ++ toString caller.Line ++
                 " " ++ caller.Function ++ "()" }) ∧
    (2 < (strings.Split caller.File '/').length →
      ∃ a b : String,
        (strings.Split caller.File '/').drop ((strings.Split caller.File '/').length - 2)
          = [a, b] ∧
        shortenFile caller.File = strings.Join [a, b] '/' ∧
        shortenFile caller.File = a ++ "/" ++ b) ∧
    ((strings.Split caller.File '/').length ≤ 2 → shortenFile caller.File = caller.File) ∧
    List.IsSuffix (shortenFile caller.File).data caller.File.data ∧
    (shortenFile caller.File).length ≤ caller.File.length ∧
    shortenFile (shortenFile caller.File) = shortenFile caller.File := by
  have hsuffix : List.IsSuffix (shortenFile caller.File).data caller.File.data := by
    by_cases h : (splitChars '/' caller.File.data).length > 2
    · obtain ⟨a, b, _, _, _, hdata, front, hfront⟩ := lastTwo caller.File h
      rw [hdata, hfront]
      exact ⟨front ++ ['/'], by simp⟩
    · rw [shortenFile_data, if_neg h]
  refine ⟨?_, ?_, ?_, hsuffix, ?_, ?_⟩
  · obtain ⟨foreground, label, hstyle, _⟩ := levelStyle_spec entry.Level
    refine ⟨_, Format_of_levelStyle f entry foreground label hstyle, ?_⟩
    simp only [hc, callerStr]
  · intro h
    rw [length_Split] at h
    obtain ⟨a, b, hab, _, _, hdata, _⟩ := lastTwo caller.File h
    refine ⟨String.mk a, String.mk b, ?_, ?_, ?_⟩
    · simp only [strings.Split, List.length_map, ← List.map_drop, hab, List.map_cons,
        List.map_nil]
    · apply String.ext
      rw [hdata]
      rfl
    · apply String.ext
      rw [hdata]
      simp [String.data_append]
  · intro h
    rw [length_Split] at h
    apply String.ext
    rw [shortenFile_data, if_neg (by omega)]
  · exact hsuffix.length_le
  · by_cases h : (splitChars '/' caller.File.data).length > 2
    · obtain ⟨a, b, _, ha, hb, hdata, _⟩ := lastTwo caller.File h
      apply String.ext
      have hsplit : splitChars '/' (shortenFile caller.File).data = [a, b] := by
        rw [hdata]
        have := splitChars_joinChars '/' [a, b] (by simp)
          (by
            intro p hp
            simp only [List.mem_cons, List.mem_singleton, List.not_mem_nil, or_false] at hp
            rcases hp with rfl | rfl
            · exact ha
            · exact hb)
        exact this
      rw [shortenFile_data (shortenFile caller.File), hsplit]
      rfl
    · have hsame : shortenFile caller.File = caller.File := by
        apply String.ext
        rw [shortenFile_data, if_neg h]
      rw [hsame, hsame]

/-- C22, witness: the caller `main.run` at `/home/dev/Xray-P/service/controller.go`, line
42, is shown as `service/controller.go`; the path `main.go` is shown unchanged. -/
theorem caller_file_shortened_witness :
    shortenFile "/home/dev/Xray-P/service/controller.go" = "service/controller.go" ∧
    shortenFile "main.go" = "main.go" ∧
    (∃ line : Line,
      Format { TimestampFormat := "" }
        (entryOf InfoLevel "started"
          (some { Function := "main.run", File := "/home/dev/Xray-P/service/controller.go",
                  Line := 42 })) =
        some ((entryOf InfoLevel "started"
          (some { Function := "main.run", File := "/home/dev/Xray-P/service/controller.go",
                  Line := 42 })).Buffer.getD [] ++ [line], none) ∧
      line.callerStr =
        some { style := TextStyle.callerStyle
               text := " " ++ shortenFile "/home/dev/Xray-P/service/controller.go" ++ ":" ++
                 toString (42 : Int) ++ " " ++ "main.run" ++ "()" }) :=
  ⟨by decide, by decide,
   (caller_file_shortened { TimestampFormat := "" }
      (entryOf InfoLevel "started"
        (some { Function := "main.run", File := "/home/dev/Xray-P/service/controller.go",
                Line := 42 }))
      { Function := "main.run", File := "/home/dev/Xray-P/service/controller.go", Line := 42 }
      rfl).1⟩

end Log
